import Mathlib

/-!
Verification of the 2c2p secure-envelope subsystem.

Go strings and byte slices are embedded as `List Nat` (byte values); pure Go
functions become Lean functions, fallible Go functions return `Except`/`Option`.
Definitions are translated from the Go source (`refund.go`, `client.go`,
`secure_fields.go`, `money.go`, `void.go`); cryptographic primitives that live
in external libraries (go-jose, crypto/rsa, pkcs7) are modelled from the spec,
as marked in their doc comments.
-/

namespace Api2c2p

/-- A Go string / byte slice: a list of byte values. -/
abbrev GoStr := List Nat

/-- Byte values of a Lean string literal (ASCII), used for Go string literals. -/
def strLit (s : String) : GoStr := s.data.map Char.toNat

/-- All entries are bytes (< 256). -/
def AllBytes (l : GoStr) : Prop := ∀ b ∈ l, b < 256

instance : DecidablePred AllBytes := fun l =>
  inferInstanceAs (Decidable (∀ b ∈ l, b < 256))

/-! ## base64url (unpadded), as used by `base64.RawURLEncoding` for JWS/JWE
segments.  Encoding is translated from the standard algorithm; decoding is the
strict inverse (trailing bits must be zero), modelling the spec's segment
format "each segment base64url, unpadded". -/

/-- The base64url alphabet: 6-bit value to ASCII code. -/
def alphaChar (v : Nat) : Nat :=
  if v < 26 then v + 65
  else if v < 52 then v + 71
  else if v < 62 then v - 4
  else if v = 62 then 45
  else 95

/-- Inverse of `alphaChar`: ASCII code back to 6-bit value. -/
def alphaVal (c : Nat) : Option Nat :=
  if 65 ≤ c ∧ c ≤ 90 then some (c - 65)
  else if 97 ≤ c ∧ c ≤ 122 then some (c - 71)
  else if 48 ≤ c ∧ c ≤ 57 then some (c + 4)
  else if c = 45 then some 62
  else if c = 95 then some 63
  else none

/-- base64url-encode a byte list (no padding). -/
def b64uEncode : GoStr → GoStr
  | [] => []
  | [a] => [alphaChar (a / 4), alphaChar (a % 4 * 16)]
  | [a, b] => [alphaChar (a / 4), alphaChar (a % 4 * 16 + b / 16), alphaChar (b % 16 * 4)]
  | a :: b :: c :: rest =>
      alphaChar (a / 4) :: alphaChar (a % 4 * 16 + b / 16) ::
      alphaChar (b % 16 * 4 + c / 64) :: alphaChar (c % 64) :: b64uEncode rest

/-- Strict base64url decode: exact inverse of `b64uEncode`. -/
def b64uDecode : GoStr → Option GoStr
  | [] => some []
  | [_] => none
  | [c1, c2] =>
      match alphaVal c1, alphaVal c2 with
      | some v1, some v2 =>
          if v2 % 16 = 0 then some [v1 * 4 + v2 / 16] else none
      | _, _ => none
  | [c1, c2, c3] =>
      match alphaVal c1, alphaVal c2, alphaVal c3 with
      | some v1, some v2, some v3 =>
          if v3 % 4 = 0 then some [v1 * 4 + v2 / 16, v2 % 16 * 16 + v3 / 4] else none
      | _, _, _ => none
  | c1 :: c2 :: c3 :: c4 :: rest =>
      match alphaVal c1, alphaVal c2, alphaVal c3, alphaVal c4 with
      | some v1, some v2, some v3, some v4 =>
          match b64uDecode rest with
          | some bs =>
              some ((v1 * 4 + v2 / 16) :: (v2 % 16 * 16 + v3 / 4) :: (v3 % 4 * 64 + v4) :: bs)
          | none => none
      | _, _, _, _ => none


/-- Split a byte string on the `.` byte (46), as `strings.Split(s, ".")` does. -/
def splitOnDot : GoStr → List GoStr
  | [] => [[]]
  | c :: rest =>
      match splitOnDot rest with
      | [] => [[]]
      | s :: ss => if c = 46 then [] :: s :: ss else (c :: s) :: ss

/-! ## JWS signing with a raw payload (`jwsWithRawPayload`, refund.go)

Translated from the Go source: marshal the token header to JSON (passed in
here as `headerJSON`, the marshalled bytes), build the signing string
`EncodeSegment(header) + "." + EncodeSegment(payload)`, sign those ASCII
bytes, and append the encoded signature. -/

/-- `jwsWithRawPayload` from refund.go, with the PSS signing primitive
(`token.Method.Sign`) abstracted as the function `sign` from the ASCII signing
string to the signature bytes. -/
def jwsWithRawPayload (sign : GoStr → GoStr) (headerJSON payload : GoStr) : GoStr :=
  let sstr := b64uEncode headerJSON ++ 46 :: b64uEncode payload
  sstr ++ 46 :: b64uEncode (sign sstr)

/-! ## Idealized RSA-PSS (spec §4.3)

The PSS implementation lives in `crypto/rsa` and go-jose, not in this
repository's source; it is modelled from the spec: signing with the private
key of a pair produces a signature over exactly the given bytes, and
verification with the matching public key accepts exactly that signature.
Key pairs are named by a natural number. -/

/-- Modelled from the spec: an RSA private key, identified by its key pair. -/
structure RSAPrivateKey where
  pair : Nat
  deriving DecidableEq

/-- Modelled from the spec: an RSA public key, identified by its key pair. -/
structure RSAPublicKey where
  pair : Nat
  deriving DecidableEq

/-- Nonzero base-255 digits of a natural number (an injective, zero-free
byte encoding used as a tag inside idealized signatures/ciphertexts). -/
def natTag : Nat → List Nat
  | 0 => []
  | n + 1 => ((n + 1) % 255 + 1) :: natTag ((n + 1) / 255)
decreasing_by exact Nat.div_lt_self (Nat.succ_pos n) (by omega)

/-- Modelled from the spec: idealized RSA-PSS-SHA256 signing.  The signature
determines the signing key pair and the exact signed bytes. -/
def pssSign (priv : RSAPrivateKey) (msg : GoStr) : GoStr :=
  natTag priv.pair ++ 0 :: msg

/-- Modelled from the spec: idealized RSA-PSS-SHA256 verification — accepts
exactly the signature produced by the matching private key over `msg`. -/
def pssVerify (pub : RSAPublicKey) (msg : GoStr) (sig : GoStr) : Bool :=
  decide (sig = pssSign ⟨pub.pair⟩ msg)

/-- `Except.isOk` as a plain Bool. -/
def exOk {α β : Type} : Except α β → Bool
  | .ok _ => true
  | .error _ => false

/-- Modelled from the spec (§4.3 Verify, the go-jose side of
`verifyAndDecryptJWSJWE`): split the compact string into exactly 3 segments
(fail otherwise), base64url-decode each, recompute the PSS verification over
the ASCII bytes `header ++ "." ++ payload`, and on success return the payload
segment's decoded raw bytes unchanged. -/
def verifyJWS (pub : RSAPublicKey) (input : GoStr) : Except GoStr GoStr :=
  match splitOnDot input with
  | [h64, p64, g64] =>
      match b64uDecode h64, b64uDecode p64, b64uDecode g64 with
      | some _, some payload, some sig =>
          if pssVerify pub (h64 ++ 46 :: p64) sig then Except.ok payload
          else Except.error (strLit "failed to verify JWS signature")
      | _, _, _ => Except.error (strLit "failed to parse JWS")
  | _ => Except.error (strLit "failed to parse JWS")

/-- The sign side of the repository's JWS flow: `jwsWithRawPayload` with the
idealized PSS primitive plugged in for `token.Method.Sign`. -/
def signJWSPS256 (priv : RSAPrivateKey) (headerJSON payload : GoStr) : GoStr :=
  jwsWithRawPayload (pssSign priv) headerJSON payload


/-! ## Client configuration and the JWE envelope (refund.go `encryptWithJWE`)

The JWE container itself is built by go-jose, which is not part of this
repository; the RSA-OAEP and AES-256-GCM primitives are modelled from the
spec (§4.2) with explicit entropy parameters (`cek`, `iv`, `rand`) standing
for the fresh per-call randomness.  The AAD binding of the protected header
inside GCM is not modelled (no claim depends on it). -/

/-- The `Client` configuration (client.go), restricted to the fields the
secure-envelope subsystem reads. -/
structure Client where
  SecretKey : GoStr
  MerchantID : GoStr
  PaymentGatewayURL : GoStr
  FrontendURL : GoStr
  PrivateKeyFile : GoStr
  ServerPublicKeyFile : GoStr

/-- Parse a `natTag` encoding terminated by a 0 byte; returns the value and
the remainder. -/
def parseTag : GoStr → Option (Nat × GoStr)
  | [] => none
  | c :: rest =>
      if c = 0 then some (0, rest)
      else
        match parseTag rest with
        | some (v, r) => some (c - 1 + 255 * v, r)
        | none => none

/-- Modelled from the spec: idealized RSA-OAEP key wrap — the ciphertext
determines the wrapping public key, the wrapped CEK, and the OAEP entropy. -/
def oaepWrap (pub : RSAPublicKey) (cek rand : Nat) : GoStr :=
  natTag pub.pair ++ 0 :: (natTag cek ++ 0 :: natTag rand)

/-- Modelled from the spec: idealized RSA-OAEP unwrap — succeeds exactly with
the private key of the wrapping pair, returning the wrapped CEK. -/
def oaepUnwrap (priv : RSAPrivateKey) (ct : GoStr) : Option Nat :=
  match parseTag ct with
  | some (p, rest) =>
      if p = priv.pair then
        match parseTag rest with
        | some (cek, _) => some cek
        | none => none
      else none
  | none => none

/-- Modelled from the spec: idealized AES-256-GCM seal — returns (ciphertext,
authentication tag); the ciphertext determines the CEK and plaintext, the tag
authenticates the (CEK, nonce) pair. -/
def gcmSeal (cek iv : Nat) (pt : GoStr) : GoStr × GoStr :=
  (natTag cek ++ 0 :: pt, natTag cek ++ 0 :: natTag iv)

/-- Modelled from the spec: idealized AES-256-GCM open — succeeds exactly for
a matching CEK, nonce and tag, returning the exact plaintext. -/
def gcmOpen (cek iv : Nat) (ct tag : GoStr) : Option GoStr :=
  if tag = natTag cek ++ 0 :: natTag iv then
    match parseTag ct with
    | some (k, pt) => if k = cek then some pt else none
    | none => none
  else none

/-- The protected JWE header produced by `encryptWithJWE` (refund.go):
go-jose serializes the header map in key order, and the call site hard-codes
the `WithType("JWE")` option, so every client configuration produces
`{"alg":"RSA-OAEP","enc":"A256GCM","typ":"JWE"}`. -/
def jweProtectedHeader (_c : Client) : GoStr :=
  strLit "\x7b\"alg\":\"RSA-OAEP\",\"enc\":\"A256GCM\",\"typ\":\"JWE\"\x7d"

/-- `encryptWithJWE` (refund.go): wrap a fresh CEK with RSA-OAEP under the
counterpart public key, seal the plaintext with AES-256-GCM under the fresh
CEK and 96-bit nonce, and serialize the compact 5-segment string
`header.key.iv.ciphertext.tag`, each segment base64url unpadded. -/
def encryptWithJWE (c : Client) (pub : RSAPublicKey) (cek iv rand : Nat)
    (data : GoStr) : GoStr :=
  b64uEncode (jweProtectedHeader c) ++ 46 ::
    (b64uEncode (oaepWrap pub cek rand) ++ 46 ::
      (b64uEncode (natTag iv) ++ 46 ::
        (b64uEncode (gcmSeal cek iv data).1 ++ 46 :: b64uEncode (gcmSeal cek iv data).2)))

/-- Modelled from the spec (§4.3/§4.2, the go-jose side of
`verifyAndDecryptJWSJWE`): split the compact JWE into exactly 5 segments,
base64url-decode each, unwrap the CEK with the local private key, and open
the authenticated ciphertext. -/
def decryptJWE (priv : RSAPrivateKey) (input : GoStr) : Except GoStr GoStr :=
  match splitOnDot input with
  | [h64, k64, i64, c64, t64] =>
      match b64uDecode h64, b64uDecode k64, b64uDecode i64, b64uDecode c64, b64uDecode t64 with
      | some _, some kw, some ivb, some ct, some tg =>
          match oaepUnwrap priv kw with
          | some cek =>
              match parseTag (ivb ++ [0]) with
              | some (iv, _) =>
                  match gcmOpen cek iv ct tg with
                  | some pt => Except.ok pt
                  | none => Except.error (strLit "failed to decrypt JWE token")
              | none => Except.error (strLit "failed to decrypt JWE token")
          | none => Except.error (strLit "failed to decrypt JWE token")
      | _, _, _, _, _ => Except.error (strLit "failed to parse JWE token")
  | _ => Except.error (strLit "failed to parse JWE token")

/-- Bool substring test: does `pat` occur as a contiguous run at the start? -/
def hasStart : GoStr → GoStr → Bool
  | [], _ => true
  | _ :: _, [] => false
  | p :: ps, c :: cs => p == c && hasStart ps cs

/-- Bool substring test: does `pat` occur anywhere in the string? -/
def hasSub (pat : GoStr) : GoStr → Bool
  | [] => hasStart pat []
  | c :: cs => hasStart pat (c :: cs) || hasSub pat cs


/-! ## Key/Certificate store (`loadPrivateKeyAndCert`, client.go)

`pem.Decode` iteration is embedded as recursion over the list of decoded PEM
blocks; the x509 DER parsers (stdlib, not repository code) are abstracted to
their parse outcome via the `DERBytes` inductive. -/

/-- Abstraction of a PEM block's DER payload by its x509 parse outcome. -/
inductive DERBytes where
  | pkcs1 (k : Nat)
  | pkcs8rsa (k : Nat)
  | pkcs8other
  | certDER (c : Nat)
  | junk
  deriving DecidableEq

/-- A decoded PEM block, as returned by `pem.Decode`. -/
structure PEMBlock where
  type : GoStr
  bytes : DERBytes
  deriving DecidableEq

/-- `x509.ParsePKCS1PrivateKey` on the abstracted DER payload. -/
def parsePKCS1PrivateKey : DERBytes → Except GoStr Nat
  | .pkcs1 k => .ok k
  | _ => .error (strLit "asn1 error")

/-- `x509.ParsePKCS8PrivateKey` on the abstracted DER payload: `.ok (some k)`
for an RSA key, `.ok none` for a well-formed non-RSA key. -/
def parsePKCS8PrivateKey : DERBytes → Except GoStr (Option Nat)
  | .pkcs8rsa k => .ok (some k)
  | .pkcs8other => .ok none
  | _ => .error (strLit "asn1 error")

/-- `x509.ParseCertificate` on the abstracted DER payload. -/
def parseCertificate : DERBytes → Except GoStr Nat
  | .certDER c => .ok c
  | _ => .error (strLit "asn1 error")

/-- The private-key arm of the `switch` in `loadPrivateKeyAndCert`: PKCS#1 for
type "RSA PRIVATE KEY", PKCS#8 (with the RSA type assertion) for "PRIVATE KEY". -/
def parseKeyBlock (b : PEMBlock) : Except GoStr Nat :=
  if b.type = strLit "RSA PRIVATE KEY" then parsePKCS1PrivateKey b.bytes
  else
    match parsePKCS8PrivateKey b.bytes with
    | .ok (some k) => .ok k
    | .ok none => .error (strLit "not an RSA private key")
    | .error e => .error e

/-- Does the block type name a private key ("RSA PRIVATE KEY" or "PRIVATE KEY")? -/
def isKeyType (t : GoStr) : Bool :=
  t == strLit "RSA PRIVATE KEY" || t == strLit "PRIVATE KEY"

/-- Does the block type name a certificate? -/
def isCertType (t : GoStr) : Bool :=
  t == strLit "CERTIFICATE"

/-- The `for { pem.Decode ... }` loop of `loadPrivateKeyAndCert` (client.go):
the accumulators mirror the `privateKey`/`cert` nil checks — only the first
block of each kind is parsed and retained, later ones are skipped. -/
def loadLoop : Option Nat → Option Nat → List PEMBlock → Except GoStr (Nat × Nat)
  | ko, co, [] =>
      match ko with
      | none => .error (strLit "no private key found")
      | some k =>
          match co with
          | none => .error (strLit "no certificate found")
          | some c => .ok (k, c)
  | ko, co, b :: rest =>
      if isKeyType b.type then
        match ko with
        | some _ => loadLoop ko co rest
        | none =>
            match parseKeyBlock b with
            | .ok k => loadLoop (some k) co rest
            | .error e => .error (strLit "parse private key: " ++ e)
      else if isCertType b.type then
        match co with
        | some _ => loadLoop ko co rest
        | none =>
            match parseCertificate b.bytes with
            | .ok c => loadLoop ko (some c) rest
            | .error e => .error (strLit "parse certificate: " ++ e)
      else loadLoop ko co rest

/-- `loadPrivateKeyAndCert` (client.go): scan all PEM blocks of the bundle,
retaining the first private-key block and the first certificate block. -/
def loadPrivateKeyAndCert (blocks : List PEMBlock) : Except GoStr (Nat × Nat) :=
  loadLoop none none blocks


/-! ## Legacy HMAC signer (`createSignatureString` / `createHMAC`, secure_fields.go)

SHA-1 and HMAC are the stdlib `crypto/sha1` / `crypto/hmac`; they are
implemented here in full (FIPS 180-4 / RFC 2104) over byte lists. -/

/-- Truncate to a 32-bit word. -/
def w32 (n : Nat) : Nat := n % 4294967296

/-- Rotate a 32-bit word left by `k`. -/
def rotl (k n : Nat) : Nat :=
  w32 n * 2 ^ k % 4294967296 + w32 n / 2 ^ (32 - k)

/-- Big-endian bytes of `n`, `width` bytes wide. -/
def natToBytesBE : Nat → Nat → List Nat
  | _, 0 => []
  | n, w + 1 => natToBytesBE (n / 256) w ++ [n % 256]

/-- Big-endian 32-bit words from bytes (length a multiple of 4). -/
def bytesToWords : List Nat → List Nat
  | b0 :: b1 :: b2 :: b3 :: rest => (((b0 * 256 + b1) * 256 + b2) * 256 + b3) :: bytesToWords rest
  | _ => []

/-- SHA-1 message schedule: extend the 16 block words by `fuel` more. -/
def extendW (ws : List Nat) : Nat → List Nat
  | 0 => ws
  | f + 1 =>
      let n := ws.length
      extendW (ws ++ [rotl 1 (((ws.getD (n - 3) 0) ^^^ (ws.getD (n - 8) 0)) ^^^
        ((ws.getD (n - 14) 0) ^^^ (ws.getD (n - 16) 0)))]) f

/-- One SHA-1 compression round. -/
def sha1Round (t : Nat) (st : Nat × Nat × Nat × Nat × Nat) (wt : Nat) :
    Nat × Nat × Nat × Nat × Nat :=
  let (a, b, c, d, e) := st
  let f :=
    if t < 20 then (b &&& c) ||| ((4294967295 ^^^ b) &&& d)
    else if t < 40 then (b ^^^ c) ^^^ d
    else if t < 60 then ((b &&& c) ||| (b &&& d)) ||| (c &&& d)
    else (b ^^^ c) ^^^ d
  let k :=
    if t < 20 then 1518500249
    else if t < 40 then 1859775393
    else if t < 60 then 2400959708
    else 3395469782
  let temp := w32 (rotl 5 a + f + e + k + wt)
  (temp, a, rotl 30 b, c, d)

/-- SHA-1 compression of one 64-byte block. -/
def sha1Block (h : Nat × Nat × Nat × Nat × Nat) (block : List Nat) :
    Nat × Nat × Nat × Nat × Nat :=
  let ws := extendW (bytesToWords block) 64
  let fin := (List.range 80).foldl (fun st t => sha1Round t st (ws.getD t 0)) h
  (w32 (h.1 + fin.1), w32 (h.2.1 + fin.2.1), w32 (h.2.2.1 + fin.2.2.1),
    w32 (h.2.2.2.1 + fin.2.2.2.1), w32 (h.2.2.2.2 + fin.2.2.2.2))

/-- SHA-1 padding: append 0x80, zeros to 56 mod 64, and the 64-bit bit length. -/
def sha1Pad (msg : List Nat) : List Nat :=
  msg ++ 128 :: List.replicate ((56 - (msg.length + 1) % 64 + 64) % 64) 0 ++
    natToBytesBE (msg.length * 8) 8

/-- Split into 64-byte blocks (fuel-structural; `l.length` fuel suffices). -/
def chunks64F : Nat → List Nat → List (List Nat)
  | 0, _ => []
  | _, [] => []
  | f + 1, c :: rest => ((c :: rest).take 64) :: chunks64F f ((c :: rest).drop 64)

/-- Split into 64-byte blocks. -/
def chunks64 (l : List Nat) : List (List Nat) := chunks64F l.length l

/-- SHA-1 of a byte list (FIPS 180-4), 20 digest bytes. -/
def sha1 (msg : List Nat) : List Nat :=
  let h := (chunks64 (sha1Pad msg)).foldl sha1Block
    (1732584193, 4023233417, 2562383102, 271733878, 3285377520)
  natToBytesBE h.1 4 ++ natToBytesBE h.2.1 4 ++ natToBytesBE h.2.2.1 4 ++
    natToBytesBE h.2.2.2.1 4 ++ natToBytesBE h.2.2.2.2 4

/-- HMAC-SHA1 (RFC 2104), as `hmac.New(sha1.New, key)` computes it. -/
def hmacSha1 (key data : List Nat) : List Nat :=
  let k0 := if 64 < key.length then sha1 key else key
  let kpad := k0 ++ List.replicate (64 - k0.length) 0
  sha1 ((kpad.map (fun b => b ^^^ 92)) ++ sha1 ((kpad.map (fun b => b ^^^ 54)) ++ data))

/-- Uppercase hex digit of a 4-bit value. -/
def hexDigitU (v : Nat) : Nat := if v < 10 then v + 48 else v + 55

/-- Uppercase hex encoding (`strings.ToUpper(hex.EncodeToString(...))`). -/
def upperHex (bytes : List Nat) : GoStr :=
  bytes.foldr (fun b acc => hexDigitU (b / 16) :: hexDigitU (b % 16) :: acc) []

/-- `createHMAC` (secure_fields.go): HMAC-SHA1 keyed by the secret, hex-encoded
in uppercase. -/
def createHMAC (data key : GoStr) : GoStr := upperHex (hmacSha1 key data)

/-- Decimal digits of a natural number (fuel-structural; `n` fuel suffices). -/
def natDecimalF : Nat → Nat → GoStr
  | 0, n => [n % 10 + 48]
  | f + 1, n => if n < 10 then [n + 48] else natDecimalF f (n / 10) ++ [n % 10 + 48]

/-- Decimal digits of a natural number (ASCII codes). -/
def natDecimal (n : Nat) : GoStr := natDecimalF n n

/-- Left-pad with ASCII zeros to width `w`. -/
def zeroPad (w : Nat) (s : GoStr) : GoStr := List.replicate (w - s.length) 48 ++ s

/-- `Cents.ZeroPrefixed12DCents` (money.go): `fmt.Sprintf("%012d", c)`. -/
def zeroPrefixed12DCents (c : Int) : GoStr :=
  if c < 0 then 45 :: zeroPad 11 (natDecimal c.natAbs)
  else zeroPad 12 (natDecimal c.toNat)

/-- `SecureFieldsPaymentDetails` (secure_fields.go); `AmountCents` is the
`Cents` int64. -/
structure SecureFieldsPaymentDetails where
  AmountCents : Int
  CurrencyCode : GoStr
  IsLoyaltyPayment : Bool
  Description : GoStr
  CustomerName : GoStr
  CountryCode : GoStr
  StoreCard : GoStr
  UserDefined1 : GoStr
  UserDefined2 : GoStr
  UserDefined3 : GoStr
  UserDefined4 : GoStr
  UserDefined5 : GoStr

/-- `createSignatureString` (secure_fields.go): the `fmt.Sprintf` over 40
`%s` verbs — a separator-free concatenation of the 40 slots in source order
(reserved slots are the empty string, request3DS is hard-coded "Y"). -/
def createSignatureString (apiVersion timestamp merchantID invoiceNo : GoStr)
    (details : SecureFieldsPaymentDetails) (encryptedCardInfo : GoStr) : GoStr :=
  apiVersion ++ timestamp ++ merchantID ++ invoiceNo ++
  details.Description ++ zeroPrefixed12DCents details.AmountCents ++
  details.CurrencyCode ++
  [] ++               -- paymentChannel
  [] ++               -- storeCardUniqueID
  [] ++               -- panBank
  details.CountryCode ++ details.CustomerName ++
  [] ++               -- cardholderEmail
  [] ++               -- payCategoryID
  details.UserDefined1 ++ details.UserDefined2 ++ details.UserDefined3 ++
  details.UserDefined4 ++ details.UserDefined5 ++ details.StoreCard ++
  [] ++ [] ++ [] ++ [] ++ [] ++ [] ++ [] ++ [] ++ [] ++ [] ++ [] ++ [] ++
  strLit "Y" ++       -- request3DS
  [] ++ [] ++ [] ++ [] ++ [] ++ [] ++
  encryptedCardInfo


/-! ## Cents JSON round trip (money.go) and VoidCancel (void.go) -/

/-- `fmt.Sprintf("%02d", c)` (Go zero-pads to total width 2, sign included). -/
def pct02 (c : Int) : GoStr :=
  if c < 0 then 45 :: zeroPad 1 (natDecimal c.natAbs)
  else zeroPad 2 (natDecimal c.toNat)

/-- `Cents.MarshalJSON` (money.go):
`fmt.Sprintf("\"%012d.%02d000\"", c/100, c%100)`; Go `/` and `%` on int64
truncate toward zero (`Int.tdiv`/`Int.tmod`). -/
def centsMarshalJSON (c : Int) : GoStr :=
  34 :: (zeroPrefixed12DCents (Int.tdiv c 100) ++
    46 :: (pct02 (Int.tmod c 100) ++ strLit "000" ++ [34]))

/-- `json.Unmarshal` of a JSON string into a Go string, restricted to
escape-free ASCII content (every `Cents.MarshalJSON` output is in this set). -/
def jsonUnquote (data : GoStr) : Except GoStr GoStr :=
  match data with
  | c :: rest =>
      if c = 34 ∧ rest.getLast? = some 34 ∧ ¬ 34 ∈ rest.dropLast ∧ ¬ 92 ∈ rest.dropLast then
        .ok rest.dropLast
      else .error (strLit "invalid JSON string")
  | [] => .error (strLit "invalid JSON string")

/-- Digit-run parser: accumulates `acc*10 + digit`, failing on a non-digit. -/
def parseDigitsAux : Nat → GoStr → Option Nat
  | acc, [] => some acc
  | acc, c :: rest =>
      if 48 ≤ c ∧ c ≤ 57 then parseDigitsAux (acc * 10 + (c - 48)) rest else none

/-- `strconv.ParseInt(s, 10, 64)`: optional sign, decimal digits, 64-bit
range check. -/
def parseInt64 (s : GoStr) : Except GoStr Int :=
  if s = [] then .error (strLit "invalid syntax")
  else if s.head? = some 45 then
    if s.tail = [] then .error (strLit "invalid syntax")
    else
      match parseDigitsAux 0 s.tail with
      | some v =>
          if v ≤ 9223372036854775808 then .ok (-(v : Int))
          else .error (strLit "value out of range")
      | none => .error (strLit "invalid syntax")
  else if s.head? = some 43 then
    if s.tail = [] then .error (strLit "invalid syntax")
    else
      match parseDigitsAux 0 s.tail with
      | some v =>
          if v ≤ 9223372036854775807 then .ok (v : Int)
          else .error (strLit "value out of range")
      | none => .error (strLit "invalid syntax")
  else
    match parseDigitsAux 0 s with
    | some v =>
        if v ≤ 9223372036854775807 then .ok (v : Int)
        else .error (strLit "value out of range")
    | none => .error (strLit "invalid syntax")

/-- `Cents.UnmarshalJSON` (money.go): decode the JSON string, split on ".",
require exactly 2 parts, parse the whole part and the first 5 characters of
the decimal part, and combine as `whole*100 + decimal/1000`.  (Go's
`split[1][:5]` panics for a decimal part shorter than 5 bytes; here `take 5`
is used — every marshalled value has exactly 5.) -/
def centsUnmarshalJSON (data : GoStr) : Except GoStr Int :=
  match jsonUnquote data with
  | .error e => .error e
  | .ok s =>
      match splitOnDot s with
      | [s0, s1] =>
          match parseInt64 s0 with
          | .error e => .error (strLit "strconv.ParseInt: " ++ e)
          | .ok whole =>
              match parseInt64 (s1.take 5) with
              | .error e => .error (strLit "strconv.ParseInt: " ++ e)
              | .ok dec => .ok (whole * 100 + Int.tdiv dec 1000)
      | _ => .error (strLit "invalid format")

/-- `Dollars` (money.go): a wrapper around the `Cents` it was built from. -/
structure Dollars where
  cents : Int
  deriving DecidableEq

/-- `Cents.ToDollars` (money.go). -/
def toDollars (c : Int) : Dollars := ⟨c⟩

/-- Modelled from the spec: `Dollars.ToCents` is called by void.go but its
definition is absent from src/; money.go's `Dollars` carries exactly the
`Cents` it was built from, so `ToCents` is the projection. -/
def Dollars.ToCents (d : Dollars) : Int := d.cents

/-- `VoidCancelRequest` (void.go). -/
structure VoidCancelRequest where
  InvoiceNo : GoStr
  MerchantID : GoStr
  ActionAmount : Dollars
  ProcessType : GoStr
  IdempotencyID : Option GoStr
  ChildMerchantID : Option GoStr

/-- The `PaymentProcessRequest` fields that `VoidCancel` populates
(refund.go); the XML-only fields it leaves nil are omitted. -/
structure PaymentProcessRequest where
  Version : GoStr
  MerchantID : GoStr
  InvoiceNo : GoStr
  ActionAmount : Dollars
  ProcessType : GoStr
  IdempotencyID : Option GoStr
  ChildMerchantID : Option GoStr

/-- `Client.VoidCancel` (void.go), up to the payment process request it
builds; the HTTP round trip (`PerformPaymentProcess`) is out of scope. -/
def VoidCancel (c : Client) (req : VoidCancelRequest) : Except GoStr PaymentProcessRequest :=
  if req.InvoiceNo = [] then .error (strLit "invoice number is required")
  else if req.ActionAmount.ToCents ≤ 0 then
    .error (strLit "action amount must be greater than 0")
  else
    .ok { Version := strLit "3.8",
          MerchantID := if req.MerchantID = [] then c.MerchantID else req.MerchantID,
          InvoiceNo := req.InvoiceNo,
          ActionAmount := req.ActionAmount,
          ProcessType := strLit "V",
          IdempotencyID := req.IdempotencyID,
          ChildMerchantID := req.ChildMerchantID }


/-! ## Legacy enveloped-data decryptor (`decryptPKCS7`, secure_fields.go)

Standard base64 (with padding, `base64.StdEncoding`) is implemented in full;
the fullsailor/pkcs7 ASN.1 enveloped-data structure is modelled from the spec
(§4.4): recipients addressed by issuer+serial, an RSA-wrapped CEK per
recipient, and symmetric content encryption; DER serialization is abstracted
to an unambiguous tagged byte encoding. -/

/-- The standard base64 alphabet: 6-bit value to ASCII code. -/
def stdChar (v : Nat) : Nat :=
  if v < 26 then v + 65
  else if v < 52 then v + 71
  else if v < 62 then v - 4
  else if v = 62 then 43
  else 47

/-- Inverse of `stdChar`. -/
def stdVal (c : Nat) : Option Nat :=
  if 65 ≤ c ∧ c ≤ 90 then some (c - 65)
  else if 97 ≤ c ∧ c ≤ 122 then some (c - 71)
  else if 48 ≤ c ∧ c ≤ 57 then some (c + 4)
  else if c = 43 then some 62
  else if c = 47 then some 63
  else none

/-- Standard base64 encode, with `=` (61) padding. -/
def b64sEncode : GoStr → GoStr
  | [] => []
  | [a] => [stdChar (a / 4), stdChar (a % 4 * 16), 61, 61]
  | [a, b] => [stdChar (a / 4), stdChar (a % 4 * 16 + b / 16), stdChar (b % 16 * 4), 61]
  | a :: b :: c :: rest =>
      stdChar (a / 4) :: stdChar (a % 4 * 16 + b / 16) ::
      stdChar (b % 16 * 4 + c / 64) :: stdChar (c % 64) :: b64sEncode rest

/-- Standard base64 decode (padded, strict): inverse of `b64sEncode`.
Padding (`=`, 61) may appear only in the final 4-character group. -/
def b64sDecode : GoStr → Option GoStr
  | [] => some []
  | [c1, c2, c3, c4] =>
      if c3 = 61 then
        if c4 = 61 then
          match stdVal c1, stdVal c2 with
          | some v1, some v2 =>
              if v2 % 16 = 0 then some [v1 * 4 + v2 / 16] else none
          | _, _ => none
        else none
      else if c4 = 61 then
        match stdVal c1, stdVal c2, stdVal c3 with
        | some v1, some v2, some v3 =>
            if v3 % 4 = 0 then some [v1 * 4 + v2 / 16, v2 % 16 * 16 + v3 / 4] else none
        | _, _, _ => none
      else
        match stdVal c1, stdVal c2, stdVal c3, stdVal c4 with
        | some v1, some v2, some v3, some v4 =>
            some [v1 * 4 + v2 / 16, v2 % 16 * 16 + v3 / 4, v3 % 4 * 64 + v4]
        | _, _, _, _ => none
  | c1 :: c2 :: c3 :: c4 :: d :: rest =>
      match stdVal c1, stdVal c2, stdVal c3, stdVal c4 with
      | some v1, some v2, some v3, some v4 =>
          match b64sDecode (d :: rest) with
          | some bs =>
              some ((v1 * 4 + v2 / 16) :: (v2 % 16 * 16 + v3 / 4) :: (v3 % 4 * 64 + v4) :: bs)
          | none => none
      | _, _, _, _ => none
  | _ => none

/-- An X.509 certificate as the PKCS7 recipient selector sees it. -/
structure Certificate where
  issuer : Nat
  serial : Nat
  deriving DecidableEq

/-- Modelled from the spec: one enveloped-data recipient — named by issuer and
serial, carrying the CEK wrapped under the pair `wrapPair`. -/
structure RecipientInfo where
  issuer : Nat
  serial : Nat
  wrapPair : Nat
  cek : Nat
  deriving DecidableEq

/-- Modelled from the spec: an ASN.1 enveloped-data structure — recipients
plus content encrypted under `cekUsed`. -/
structure EnvelopedData where
  recipients : List RecipientInfo
  cekUsed : Nat
  content : GoStr
  deriving DecidableEq

/-- A tagged natural: zero-free base-255 digits plus a 0 terminator. -/
def encNat (n : Nat) : GoStr := natTag n ++ [0]

/-- Wire encoding of one recipient. -/
def encRecipient (r : RecipientInfo) : GoStr :=
  encNat r.issuer ++ encNat r.serial ++ encNat r.wrapPair ++ encNat r.cek

/-- Modelled from the spec: the DER serialization of enveloped data,
abstracted to a recipient-count-prefixed tagged encoding. -/
def derEncodeEnveloped (e : EnvelopedData) : GoStr :=
  encNat e.recipients.length ++ (e.recipients.map encRecipient).flatten ++
    encNat e.cekUsed ++ encNat e.content.length ++ e.content

/-- Parse `count` recipients. -/
def parseRecipients : Nat → GoStr → Option (List RecipientInfo × GoStr)
  | 0, s => some ([], s)
  | k + 1, s =>
      match parseTag s with
      | some (iss, s1) =>
          match parseTag s1 with
          | some (ser, s2) =>
              match parseTag s2 with
              | some (wp, s3) =>
                  match parseTag s3 with
                  | some (ck, s4) =>
                      match parseRecipients k s4 with
                      | some (rs, s5) => some (⟨iss, ser, wp, ck⟩ :: rs, s5)
                      | none => none
                  | none => none
              | none => none
          | none => none
      | none => none

/-- Modelled from the spec: `pkcs7.Parse` — parse the enveloped-data
structure, failing on malformed input. -/
def pkcs7Parse (der : GoStr) : Except GoStr EnvelopedData :=
  match parseTag der with
  | some (cnt, s1) =>
      match parseRecipients cnt s1 with
      | some (rs, s2) =>
          match parseTag s2 with
          | some (cek, s3) =>
              match parseTag s3 with
              | some (len, s4) =>
                  if s4.length = len then .ok ⟨rs, cek, s4⟩
                  else .error (strLit "ber2der: malformed enveloped data")
              | none => .error (strLit "ber2der: malformed enveloped data")
          | none => .error (strLit "ber2der: malformed enveloped data")
      | none => .error (strLit "ber2der: malformed enveloped data")
  | none => .error (strLit "ber2der: malformed enveloped data")

/-- Modelled from the spec: `p7.Decrypt(cert, pkey)` — select the recipient
whose issuer and serial match the local certificate, unwrap the CEK with the
local private key, and decrypt the content. -/
def p7Decrypt (e : EnvelopedData) (cert : Certificate) (priv : RSAPrivateKey) :
    Except GoStr GoStr :=
  match e.recipients.find? (fun r => r.issuer == cert.issuer && r.serial == cert.serial) with
  | none => .error (strLit "no enveloped recipient for provided certificate")
  | some r =>
      if r.wrapPair = priv.pair ∧ r.cek = e.cekUsed then .ok e.content
      else .error (strLit "symmetric decryption failed")

/-- `decryptPKCS7` (secure_fields.go): base64-decode, parse the PKCS7
enveloped data, decrypt with the local certificate and private key; each
stage's failure is surfaced with its own error. -/
def decryptPKCS7 (encryptedData : GoStr) (priv : RSAPrivateKey) (cert : Certificate) :
    Except GoStr GoStr :=
  match b64sDecode encryptedData with
  | none => .error (strLit "failed to decode base64 data")
  | some der =>
      match pkcs7Parse der with
      | .error e => .error (strLit "failed to parse PKCS7 data: " ++ e)
      | .ok p7 =>
          match p7Decrypt p7 cert priv with
          | .error e => .error (strLit "failed to decrypt data: " ++ e)
          | .ok pt => .ok pt

end Api2c2p

namespace Api2c2p






theorem alphaVal_alphaChar (v : Nat) (h : v < 64) : alphaVal (alphaChar v) = some v := by
  interval_cases v <;> rfl

theorem alphaChar_ne_dot (v : Nat) : alphaChar v ≠ 46 := by
  unfold alphaChar
  split_ifs <;> omega

theorem alphaChar_lt (v : Nat) : alphaChar v < 128 := by
  unfold alphaChar
  split_ifs <;> omega

theorem alphaVal_lt {c v : Nat} (h : alphaVal c = some v) : v < 64 := by
  unfold alphaVal at h
  split_ifs at h <;> simp only [Option.some.injEq] at h <;> omega

theorem alphaChar_alphaVal {c v : Nat} (h : alphaVal c = some v) : alphaChar v = c := by
  unfold alphaVal at h
  split_ifs at h <;> simp only [Option.some.injEq] at h <;>
    (subst h; unfold alphaChar; split_ifs <;> omega)

theorem b64uDecode_b64uEncode : ∀ l : GoStr, AllBytes l → b64uDecode (b64uEncode l) = some l
  | [], _ => by simp [b64uEncode, b64uDecode]
  | [a], h => by
      have ha : a < 256 := h a (by simp)
      simp only [b64uEncode, b64uDecode]
      rw [alphaVal_alphaChar (a / 4) (by omega), alphaVal_alphaChar (a % 4 * 16) (by omega)]
      dsimp only
      rw [if_pos (show a % 4 * 16 % 16 = 0 by omega)]
      simp only [Option.some.injEq, List.cons.injEq, and_true]
      omega
  | [a, b], h => by
      have ha : a < 256 := h a (by simp)
      have hb : b < 256 := h b (by simp)
      simp only [b64uEncode, b64uDecode]
      rw [alphaVal_alphaChar (a / 4) (by omega),
          alphaVal_alphaChar (a % 4 * 16 + b / 16) (by omega),
          alphaVal_alphaChar (b % 16 * 4) (by omega)]
      dsimp only
      rw [if_pos (show b % 16 * 4 % 4 = 0 by omega)]
      simp only [Option.some.injEq, List.cons.injEq, and_true]
      exact ⟨by omega, by omega⟩
  | a :: b :: c :: rest, h => by
      have ha : a < 256 := h a (by simp)
      have hb : b < 256 := h b (by simp)
      have hc : c < 256 := h c (by simp)
      have hrest : AllBytes rest := fun x hx => h x (by simp [hx])
      have ih := b64uDecode_b64uEncode rest hrest
      simp only [b64uEncode, b64uDecode]
      rw [alphaVal_alphaChar (a / 4) (by omega),
          alphaVal_alphaChar (a % 4 * 16 + b / 16) (by omega),
          alphaVal_alphaChar (b % 16 * 4 + c / 64) (by omega),
          alphaVal_alphaChar (c % 64) (by omega), ih]
      dsimp only
      simp only [Option.some.injEq, List.cons.injEq, and_true]
      refine ⟨by omega, by omega, by omega⟩


theorem b64uEncode_b64uDecode : ∀ s l : GoStr, b64uDecode s = some l → b64uEncode l = s ∧ AllBytes l
  | [], l, h => by
      simp only [b64uDecode, Option.some.injEq] at h
      subst h
      exact ⟨rfl, by intro b hb; simp at hb⟩
  | [c1], l, h => by simp [b64uDecode] at h
  | [c1, c2], l, h => by
      simp only [b64uDecode] at h
      rcases h1 : alphaVal c1 with _ | v1 <;> rw [h1] at h <;> try simp at h
      rcases h2 : alphaVal c2 with _ | v2 <;> rw [h2] at h <;> try simp at h
      have hv1 := alphaVal_lt h1
      have hv2 := alphaVal_lt h2
      obtain ⟨hz, hl⟩ := h
      subst hl
      have e1 : (v1 * 4 + v2 / 16) / 4 = v1 := by omega
      have e2 : (v1 * 4 + v2 / 16) % 4 * 16 = v2 := by omega
      refine ⟨?_, ?_⟩
      · simp only [b64uEncode, e1, e2, alphaChar_alphaVal h1, alphaChar_alphaVal h2]
      · intro b hb
        simp only [List.mem_singleton] at hb
        omega
  | [c1, c2, c3], l, h => by
      simp only [b64uDecode] at h
      rcases h1 : alphaVal c1 with _ | v1 <;> rw [h1] at h <;> try simp at h
      rcases h2 : alphaVal c2 with _ | v2 <;> rw [h2] at h <;> try simp at h
      rcases h3 : alphaVal c3 with _ | v3 <;> rw [h3] at h <;> try simp at h
      have hv1 := alphaVal_lt h1
      have hv2 := alphaVal_lt h2
      have hv3 := alphaVal_lt h3
      obtain ⟨hz, hl⟩ := h
      subst hl
      have e1 : (v1 * 4 + v2 / 16) / 4 = v1 := by omega
      have e2 : (v1 * 4 + v2 / 16) % 4 * 16 + (v2 % 16 * 16 + v3 / 4) / 16 = v2 := by omega
      have e3 : (v2 % 16 * 16 + v3 / 4) % 16 * 4 = v3 := by omega
      refine ⟨?_, ?_⟩
      · simp only [b64uEncode, e1, e2, e3,
          alphaChar_alphaVal h1, alphaChar_alphaVal h2, alphaChar_alphaVal h3]
      · intro b hb
        simp only [List.mem_cons, List.mem_singleton, List.not_mem_nil, or_false] at hb
        rcases hb with hb | hb <;> omega
  | c1 :: c2 :: c3 :: c4 :: rest, l, h => by
      simp only [b64uDecode] at h
      rcases h1 : alphaVal c1 with _ | v1 <;> rw [h1] at h <;> try simp at h
      rcases h2 : alphaVal c2 with _ | v2 <;> rw [h2] at h <;> try simp at h
      rcases h3 : alphaVal c3 with _ | v3 <;> rw [h3] at h <;> try simp at h
      rcases h4 : alphaVal c4 with _ | v4 <;> rw [h4] at h <;> try simp at h
      have hv1 := alphaVal_lt h1
      have hv2 := alphaVal_lt h2
      have hv3 := alphaVal_lt h3
      have hv4 := alphaVal_lt h4
      rcases hr : b64uDecode rest with _ | bs <;> rw [hr] at h <;> try simp at h
      obtain ⟨ihe, ihb⟩ := b64uEncode_b64uDecode rest bs hr
      subst h
      have e1 : (v1 * 4 + v2 / 16) / 4 = v1 := by omega
      have e2 : (v1 * 4 + v2 / 16) % 4 * 16 + (v2 % 16 * 16 + v3 / 4) / 16 = v2 := by omega
      have e3 : (v2 % 16 * 16 + v3 / 4) % 16 * 4 + (v3 % 4 * 64 + v4) / 64 = v3 := by omega
      have e4 : (v3 % 4 * 64 + v4) % 64 = v4 := by omega
      refine ⟨?_, ?_⟩
      · simp only [b64uEncode, e1, e2, e3, e4, ihe,
          alphaChar_alphaVal h1, alphaChar_alphaVal h2,
          alphaChar_alphaVal h3, alphaChar_alphaVal h4]
      · intro b hb
        simp only [List.mem_cons] at hb
        rcases hb with hb | hb | hb | hb
        · omega
        · omega
        · omega
        · exact ihb b hb

theorem mem_b64uEncode : ∀ l : GoStr, ∀ x ∈ b64uEncode l, ∃ v, x = alphaChar v
  | [], x, hx => by simp [b64uEncode] at hx
  | [a], x, hx => by
      simp only [b64uEncode, List.mem_cons, List.not_mem_nil, or_false] at hx
      rcases hx with hx | hx <;> exact ⟨_, hx⟩
  | [a, b], x, hx => by
      simp only [b64uEncode, List.mem_cons, List.not_mem_nil, or_false] at hx
      rcases hx with hx | hx | hx <;> exact ⟨_, hx⟩
  | a :: b :: c :: rest, x, hx => by
      simp only [b64uEncode, List.mem_cons] at hx
      rcases hx with hx | hx | hx | hx | hx
      · exact ⟨_, hx⟩
      · exact ⟨_, hx⟩
      · exact ⟨_, hx⟩
      · exact ⟨_, hx⟩
      · exact mem_b64uEncode rest x hx

theorem dot_not_mem_b64uEncode (l : GoStr) : 46 ∉ b64uEncode l := by
  intro hmem
  obtain ⟨v, hv⟩ := mem_b64uEncode l 46 hmem
  exact alphaChar_ne_dot v hv.symm

theorem b64uEncode_bytes (l : GoStr) : AllBytes (b64uEncode l) := by
  intro x hx
  obtain ⟨v, hv⟩ := mem_b64uEncode l x hx
  have := alphaChar_lt v
  omega

theorem splitOnDot_ne_nil (l : GoStr) : splitOnDot l ≠ [] := by
  induction l with
  | nil => simp [splitOnDot]
  | cons c rest ih =>
      rcases hr : splitOnDot rest with _ | ⟨s, ss⟩
      · exact absurd hr ih
      · simp only [splitOnDot, hr]
        split <;> simp

theorem splitOnDot_no_dot (xs : GoStr) (h : 46 ∉ xs) : splitOnDot xs = [xs] := by
  induction xs with
  | nil => rfl
  | cons c rest ih =>
      have hc : c ≠ 46 := fun hc => h (by simp [hc])
      have hrest : 46 ∉ rest := fun hx => h (by simp [hx])
      simp only [splitOnDot]
      rw [ih hrest]
      dsimp only
      rw [if_neg hc]

theorem splitOnDot_append_dot (xs ys : GoStr) (h : 46 ∉ xs) :
    splitOnDot (xs ++ 46 :: ys) = xs :: splitOnDot ys := by
  induction xs with
  | nil =>
      simp only [List.nil_append, splitOnDot]
      rcases hr : splitOnDot ys with _ | ⟨s, ss⟩
      · exact absurd hr (splitOnDot_ne_nil ys)
      · simp
  | cons c rest ih =>
      have hc : c ≠ 46 := fun hc => h (by simp [hc])
      have hrest : 46 ∉ rest := fun hx => h (by simp [hx])
      rw [show (c :: rest) ++ 46 :: ys = c :: (rest ++ 46 :: ys) from rfl]
      simp only [splitOnDot]
      rw [ih hrest]
      dsimp only
      rw [if_neg hc]

theorem splitOnDot_length (l : GoStr) : (splitOnDot l).length = l.count 46 + 1 := by
  induction l with
  | nil => rfl
  | cons c rest ih =>
      rcases hr : splitOnDot rest with _ | ⟨s, ss⟩
      · exact absurd hr (splitOnDot_ne_nil rest)
      · rw [hr] at ih
        simp only [splitOnDot, hr]
        by_cases hc : c = 46
        · subst hc
          rw [if_pos rfl]
          simp only [List.length_cons] at ih ⊢
          simp only [List.count_cons]
          simp
          omega
        · rw [if_neg hc]
          simp only [List.length_cons] at ih ⊢
          simp only [List.count_cons]
          have hbe : (c == 46) = false := by simpa using hc
          simp only [hbe]
          simp
          omega

theorem AllBytes_append {l1 l2 : GoStr} (h1 : AllBytes l1) (h2 : AllBytes l2) :
    AllBytes (l1 ++ l2) := by
  intro b hb
  rcases List.mem_append.1 hb with hb | hb
  · exact h1 b hb
  · exact h2 b hb

theorem AllBytes_cons {b : Nat} {l : GoStr} (hb : b < 256) (hl : AllBytes l) :
    AllBytes (b :: l) := by
  intro x hx
  rcases List.mem_cons.1 hx with rfl | hx
  · exact hb
  · exact hl x hx

theorem natTag_bytes (n : Nat) : ∀ b ∈ natTag n, b < 256 := by
  induction n using Nat.strong_induction_on with
  | _ n ih =>
      match n with
      | 0 => simp [natTag]
      | m + 1 =>
          rw [natTag]
          intro b hb
          rcases List.mem_cons.1 hb with rfl | hb
          · omega
          · exact ih ((m + 1) / 255) (Nat.div_lt_self (Nat.succ_pos m) (by omega)) b hb

theorem pssSign_bytes (priv : RSAPrivateKey) (msg : GoStr) (hm : AllBytes msg) :
    AllBytes (pssSign priv msg) :=
  AllBytes_append (natTag_bytes priv.pair) (AllBytes_cons (by omega) hm)

theorem pssSign_inj_msg (priv : RSAPrivateKey) {m1 m2 : GoStr}
    (h : pssSign priv m1 = pssSign priv m2) : m1 = m2 := by
  unfold pssSign at h
  have := List.append_cancel_left h
  exact List.tail_eq_of_cons_eq this

theorem splitOnDot_three (A P G : GoStr) (hA : 46 ∉ A) (hP : 46 ∉ P) (hG : 46 ∉ G) :
    splitOnDot (A ++ 46 :: (P ++ 46 :: G)) = [A, P, G] := by
  rw [splitOnDot_append_dot A _ hA, splitOnDot_append_dot P _ hP, splitOnDot_no_dot G hG]

/-- C1: `jwsWithRawPayload` produces the 3-segment string
`base64url(header) ++ "." ++ base64url(E) ++ "." ++ base64url(sig)`, where the
signature is computed over exactly the ASCII bytes of
`base64url(header) ++ "." ++ base64url(E)`; the payload segment carries the raw
bytes of `E` (it base64url-decodes back to exactly `E`, with no JSON claims
re-encoding). -/
theorem c1_jwsWithRawPayload_raw_segments
    (sign : GoStr → GoStr) (headerJSON E : GoStr) (hE : AllBytes E) :
    jwsWithRawPayload sign headerJSON E =
      b64uEncode headerJSON ++ 46 :: b64uEncode E ++ 46 ::
        b64uEncode (sign (b64uEncode headerJSON ++ 46 :: b64uEncode E)) ∧
    splitOnDot (jwsWithRawPayload sign headerJSON E) =
      [b64uEncode headerJSON, b64uEncode E,
        b64uEncode (sign (b64uEncode headerJSON ++ 46 :: b64uEncode E))] ∧
    b64uDecode (b64uEncode E) = some E := by
  refine ⟨?_, ?_, b64uDecode_b64uEncode E hE⟩
  · simp [jwsWithRawPayload]
  · show splitOnDot ((b64uEncode headerJSON ++ 46 :: b64uEncode E) ++ 46 ::
        b64uEncode (sign (b64uEncode headerJSON ++ 46 :: b64uEncode E))) = _
    rw [List.append_assoc]
    rw [show (46 :: b64uEncode E) ++ 46 ::
        b64uEncode (sign (b64uEncode headerJSON ++ 46 :: b64uEncode E)) =
        46 :: (b64uEncode E ++ 46 ::
          b64uEncode (sign (b64uEncode headerJSON ++ 46 :: b64uEncode E))) from rfl]
    exact splitOnDot_three _ _ _ (dot_not_mem_b64uEncode _) (dot_not_mem_b64uEncode _)
      (dot_not_mem_b64uEncode _)

theorem c1_witness :
    AllBytes (strLit "ab") ∧ b64uDecode (b64uEncode (strLit "ab")) = some (strLit "ab") :=
  ⟨by decide,
    (c1_jwsWithRawPayload_raw_segments (fun _ => [7, 8]) (strLit "hd") (strLit "ab")
      (by decide)).2.2⟩


theorem count_dot_three (A P G : GoStr) (hA : 46 ∉ A) (hG : 46 ∉ G) (hP : (46:Nat) ∈ P) :
    3 ≤ (A ++ 46 :: (P ++ 46 :: G)).count 46 := by
  have hca : List.count 46 A = 0 := List.count_eq_zero.2 hA
  have hcg : List.count 46 G = 0 := List.count_eq_zero.2 hG
  have hcp : 0 < List.count 46 P := List.count_pos_iff.2 hP
  rw [List.count_append]
  simp only [List.count_cons, List.count_append]
  simp
  omega

theorem verifyJWS_not_three {pub : RSAPublicKey} {s : GoStr}
    (h : (splitOnDot s).length ≠ 3) : exOk (verifyJWS pub s) = false := by
  unfold verifyJWS
  rcases hsp : splitOnDot s with _ | ⟨x1, _ | ⟨x2, _ | ⟨x3, _ | ⟨x4, tl⟩⟩⟩⟩
  · rfl
  · rfl
  · rfl
  · rw [hsp] at h
    simp at h
  · rfl

/-- C2: verifying the SignedEnvelope produced by signing payload bytes `B`
with the private key of a pair succeeds with the matching public key and
returns exactly `B`; and verification fails (no payload is returned) whenever
the payload segment or the signature segment is replaced by any different
byte string — in particular for any single-byte mutation of either segment. -/
theorem c2_jws_sign_verify_roundtrip_mutation
    (pair : Nat) (headerJSON B : GoStr) (hH : AllBytes headerJSON) (hB : AllBytes B) :
    verifyJWS ⟨pair⟩ (signJWSPS256 ⟨pair⟩ headerJSON B) = Except.ok B ∧
    (∀ p' : GoStr, p' ≠ b64uEncode B →
      exOk (verifyJWS ⟨pair⟩ (b64uEncode headerJSON ++ 46 :: (p' ++ 46 ::
        b64uEncode (pssSign ⟨pair⟩
          (b64uEncode headerJSON ++ 46 :: b64uEncode B))))) = false) ∧
    (∀ g' : GoStr,
      g' ≠ b64uEncode (pssSign ⟨pair⟩ (b64uEncode headerJSON ++ 46 :: b64uEncode B)) →
      exOk (verifyJWS ⟨pair⟩
        (b64uEncode headerJSON ++ 46 :: (b64uEncode B ++ 46 :: g'))) = false) := by
  have hA : 46 ∉ b64uEncode headerJSON := dot_not_mem_b64uEncode _
  have hP : 46 ∉ b64uEncode B := dot_not_mem_b64uEncode _
  have hsigBytes : AllBytes (pssSign ⟨pair⟩ (b64uEncode headerJSON ++ 46 :: b64uEncode B)) :=
    pssSign_bytes _ _ (AllBytes_append (b64uEncode_bytes _)
      (AllBytes_cons (by omega) (b64uEncode_bytes _)))
  have hG : 46 ∉ b64uEncode (pssSign ⟨pair⟩ (b64uEncode headerJSON ++ 46 :: b64uEncode B)) :=
    dot_not_mem_b64uEncode _
  refine ⟨?_, ?_, ?_⟩
  · have hstr : signJWSPS256 ⟨pair⟩ headerJSON B =
        b64uEncode headerJSON ++ 46 :: (b64uEncode B ++ 46 ::
          b64uEncode (pssSign ⟨pair⟩ (b64uEncode headerJSON ++ 46 :: b64uEncode B))) := by
      simp [signJWSPS256, jwsWithRawPayload]
    rw [hstr]
    unfold verifyJWS
    rw [splitOnDot_three _ _ _ hA hP hG]
    dsimp only
    rw [b64uDecode_b64uEncode headerJSON hH, b64uDecode_b64uEncode B hB,
        b64uDecode_b64uEncode _ hsigBytes]
    dsimp only
    rw [if_pos (by simp [pssVerify])]
  · intro p' hp'
    by_cases hdp : (46:Nat) ∈ p'
    · apply verifyJWS_not_three
      rw [splitOnDot_length]
      have := count_dot_three _ p' _ hA hG hdp
      omega
    · unfold verifyJWS
      rw [splitOnDot_three _ _ _ hA hdp hG]
      dsimp only
      rw [b64uDecode_b64uEncode headerJSON hH, b64uDecode_b64uEncode _ hsigBytes]
      rcases hq : b64uDecode p' with _ | B'
      · dsimp only
        rfl
      · obtain ⟨henc, hbytes⟩ := b64uEncode_b64uDecode p' B' hq
        dsimp only
        have hfalse : pssVerify ⟨pair⟩ (b64uEncode headerJSON ++ 46 :: p')
            (pssSign ⟨pair⟩ (b64uEncode headerJSON ++ 46 :: b64uEncode B)) = false := by
          simp only [pssVerify, decide_eq_false_iff_not]
          intro heq
          have hmsg := pssSign_inj_msg ⟨pair⟩ heq
          have htail := List.tail_eq_of_cons_eq (List.append_cancel_left hmsg)
          exact hp' htail.symm
        rw [hfalse]
        rfl
  · intro g' hg'
    by_cases hdg : (46:Nat) ∈ g'
    · apply verifyJWS_not_three
      rw [splitOnDot_length]
      have hca : List.count 46 (b64uEncode headerJSON) = 0 := List.count_eq_zero.2 hA
      have hcp : List.count 46 (b64uEncode B) = 0 := List.count_eq_zero.2 hP
      have hcg : 0 < List.count 46 g' := List.count_pos_iff.2 hdg
      rw [List.count_append]
      simp only [List.count_cons, List.count_append]
      simp
      omega
    · unfold verifyJWS
      rw [splitOnDot_three _ _ _ hA hP hdg]
      dsimp only
      rw [b64uDecode_b64uEncode headerJSON hH, b64uDecode_b64uEncode B hB]
      rcases hq : b64uDecode g' with _ | sig'
      · dsimp only
        rfl
      · obtain ⟨henc, hbytes⟩ := b64uEncode_b64uDecode g' sig' hq
        dsimp only
        have hfalse : pssVerify ⟨pair⟩ (b64uEncode headerJSON ++ 46 :: b64uEncode B)
            sig' = false := by
          simp only [pssVerify, decide_eq_false_iff_not]
          intro heq
          apply hg'
          rw [← henc, heq]
        rw [hfalse]
        rfl

theorem c2_witness :
    verifyJWS ⟨5⟩ (signJWSPS256 ⟨5⟩ (strLit "hd") (strLit "xy")) =
      Except.ok (strLit "xy") :=
  (c2_jws_sign_verify_roundtrip_mutation 5 (strLit "hd") (strLit "xy")
    (by decide) (by decide)).1


theorem parseTag_natTag : ∀ n : Nat, ∀ r : GoStr, parseTag (natTag n ++ 0 :: r) = some (n, r) := by
  intro n
  induction n using Nat.strong_induction_on with
  | _ n ih =>
      match n with
      | 0 =>
          intro r
          simp [natTag, parseTag]
      | m + 1 =>
          intro r
          rw [natTag]
          rw [show (((m + 1) % 255 + 1) :: natTag ((m + 1) / 255)) ++ 0 :: r =
              ((m + 1) % 255 + 1) :: (natTag ((m + 1) / 255) ++ 0 :: r) from rfl]
          unfold parseTag
          rw [if_neg (by omega)]
          rw [ih ((m + 1) / 255) (Nat.div_lt_self (Nat.succ_pos m) (by omega)) r]
          simp only [Option.some.injEq, Prod.mk.injEq, and_true]
          omega

theorem splitOnDot_five (A B C D E : GoStr)
    (hA : 46 ∉ A) (hB : 46 ∉ B) (hC : 46 ∉ C) (hD : 46 ∉ D) (hE : 46 ∉ E) :
    splitOnDot (A ++ 46 :: (B ++ 46 :: (C ++ 46 :: (D ++ 46 :: E)))) = [A, B, C, D, E] := by
  rw [splitOnDot_append_dot A _ hA, splitOnDot_append_dot B _ hB,
      splitOnDot_append_dot C _ hC, splitOnDot_append_dot D _ hD,
      splitOnDot_no_dot E hE]

/-- C3: for every plaintext `P`, every client configuration, every key pair
and all per-call entropy (fresh CEK, nonce, OAEP randomness), decrypting the
5-segment Envelope produced by `encryptWithJWE` with the private key matching
the counterpart public key returns exactly `P`. -/
theorem c3_jwe_encrypt_decrypt (c : Client) (pair cek iv rand : Nat) (P : GoStr)
    (hP : AllBytes P) :
    splitOnDot (encryptWithJWE c ⟨pair⟩ cek iv rand P) =
      [b64uEncode (jweProtectedHeader c), b64uEncode (oaepWrap ⟨pair⟩ cek rand),
        b64uEncode (natTag iv), b64uEncode (gcmSeal cek iv P).1,
        b64uEncode (gcmSeal cek iv P).2] ∧
    decryptJWE ⟨pair⟩ (encryptWithJWE c ⟨pair⟩ cek iv rand P) = Except.ok P := by
  have hsplit : splitOnDot (encryptWithJWE c ⟨pair⟩ cek iv rand P) =
      [b64uEncode (jweProtectedHeader c), b64uEncode (oaepWrap ⟨pair⟩ cek rand),
        b64uEncode (natTag iv), b64uEncode (gcmSeal cek iv P).1,
        b64uEncode (gcmSeal cek iv P).2] := by
    unfold encryptWithJWE
    exact splitOnDot_five _ _ _ _ _ (dot_not_mem_b64uEncode _) (dot_not_mem_b64uEncode _)
      (dot_not_mem_b64uEncode _) (dot_not_mem_b64uEncode _) (dot_not_mem_b64uEncode _)
  refine ⟨hsplit, ?_⟩
  have hhdr : AllBytes (jweProtectedHeader c) := by
    unfold jweProtectedHeader
    decide
  have hkw : AllBytes (oaepWrap ⟨pair⟩ cek rand) := by
    unfold oaepWrap
    exact AllBytes_append (natTag_bytes _)
      (AllBytes_cons (by omega)
        (AllBytes_append (natTag_bytes _) (AllBytes_cons (by omega) (natTag_bytes _))))
  have hiv : AllBytes (natTag iv) := natTag_bytes iv
  have hct : AllBytes (gcmSeal cek iv P).1 := by
    unfold gcmSeal
    exact AllBytes_append (natTag_bytes _) (AllBytes_cons (by omega) hP)
  have htg : AllBytes (gcmSeal cek iv P).2 := by
    unfold gcmSeal
    exact AllBytes_append (natTag_bytes _) (AllBytes_cons (by omega) (natTag_bytes _))
  unfold decryptJWE
  rw [hsplit]
  dsimp only
  rw [b64uDecode_b64uEncode _ hhdr, b64uDecode_b64uEncode _ hkw,
      b64uDecode_b64uEncode _ hiv, b64uDecode_b64uEncode _ hct,
      b64uDecode_b64uEncode _ htg]
  dsimp only
  have hunwrap : oaepUnwrap ⟨pair⟩ (oaepWrap ⟨pair⟩ cek rand) = some cek := by
    unfold oaepUnwrap oaepWrap
    rw [parseTag_natTag]
    dsimp only
    rw [if_pos rfl, parseTag_natTag]
  rw [hunwrap]
  dsimp only
  rw [show natTag iv ++ [0] = natTag iv ++ 0 :: ([] : GoStr) from rfl, parseTag_natTag]
  dsimp only
  have hopen : gcmOpen cek iv (gcmSeal cek iv P).1 (gcmSeal cek iv P).2 = some P := by
    unfold gcmOpen gcmSeal
    rw [if_pos rfl, parseTag_natTag]
    dsimp only
    rw [if_pos rfl]
  rw [hopen]

theorem c3_witness :
    decryptJWE ⟨9⟩ (encryptWithJWE ⟨[], [], [], [], [], []⟩ ⟨9⟩ 3 4 5 (strLit "pt")) =
      Except.ok (strLit "pt") :=
  (c3_jwe_encrypt_decrypt ⟨[], [], [], [], [], []⟩ 9 3 4 5 (strLit "pt") (by decide)).2

/-- C7 counterexample: there is no client configuration under which
`encryptWithJWE` omits the `typ` field from the protected header — the
`WithType("JWE")` option is hard-coded, so the claim's "for some
configuration the header omits the typ field" is false. -/
theorem c7_counterexample :
    ¬ ∃ c : Client, hasSub (strLit "\"typ\"") (jweProtectedHeader c) = false := by
  rintro ⟨c, hc⟩
  revert hc
  unfold jweProtectedHeader
  decide

/-- C7 (amended): inclusion of the `typ` field is hard-coded, not
configurable — for every client configuration the header produced by
`encryptWithJWE` contains `"typ":"JWE"`. -/
theorem c7_typ_hardcoded (c : Client) :
    hasSub (strLit "\"typ\":\"JWE\"") (jweProtectedHeader c) = true := by
  unfold jweProtectedHeader
  decide


theorem key_type_not_cert {t : GoStr} (h : isKeyType t = true) : isCertType t = false := by
  unfold isKeyType at h
  simp only [Bool.or_eq_true, beq_iff_eq] at h
  unfold isCertType
  rcases h with rfl | rfl <;> decide

theorem loadLoop_ok_iff : ∀ (blocks : List PEMBlock) (ko co : Option Nat) (k c : Nat),
    loadLoop ko co blocks = .ok (k, c) ↔
      (match ko with
       | some k0 => k = k0
       | none => ∃ bk, blocks.find? (fun b => isKeyType b.type) = some bk ∧
           parseKeyBlock bk = .ok k) ∧
      (match co with
       | some c0 => c = c0
       | none => ∃ bc, blocks.find? (fun b => isCertType b.type) = some bc ∧
           parseCertificate bc.bytes = .ok c) := by
  intro blocks
  induction blocks with
  | nil =>
      intro ko co k c
      cases ko <;> cases co <;> simp [loadLoop, eq_comm]
  | cons b rest ih =>
      intro ko co k c
      by_cases hk : isKeyType b.type
      · have hcf : isCertType b.type = false := key_type_not_cert hk
        rw [@List.find?_cons_of_pos _ (fun b => isKeyType b.type) b rest hk,
            @List.find?_cons_of_neg _ (fun b => isCertType b.type) b rest (by simp [hcf])]
        cases ko with
        | some k0 =>
            rw [show loadLoop (some k0) co (b :: rest) = loadLoop (some k0) co rest by
              simp [loadLoop, hk]]
            exact ih (some k0) co k c
        | none =>
            rcases hp : parseKeyBlock b with e | k'
            · rw [show loadLoop none co (b :: rest) =
                  .error (strLit "parse private key: " ++ e) by simp [loadLoop, hk, hp]]
              simp [hp]
            · rw [show loadLoop none co (b :: rest) = loadLoop (some k') co rest by
                simp [loadLoop, hk, hp]]
              rw [ih (some k') co k c]
              constructor
              · rintro ⟨rfl, hco⟩
                exact ⟨⟨b, rfl, hp⟩, hco⟩
              · rintro ⟨⟨bk, hbk, hpk⟩, hco⟩
                obtain rfl := Option.some.inj hbk
                rw [hp] at hpk
                exact ⟨(Except.ok.inj hpk).symm, hco⟩
      · by_cases hc : isCertType b.type
        · rw [@List.find?_cons_of_neg _ (fun b => isKeyType b.type) b rest (by simp [hk]),
              @List.find?_cons_of_pos _ (fun b => isCertType b.type) b rest hc]
          cases co with
          | some c0 =>
              rw [show loadLoop ko (some c0) (b :: rest) = loadLoop ko (some c0) rest by
                simp [loadLoop, hk, hc]]
              exact ih ko (some c0) k c
          | none =>
              rcases hp : parseCertificate b.bytes with e | c'
              · rw [show loadLoop ko none (b :: rest) =
                    .error (strLit "parse certificate: " ++ e) by simp [loadLoop, hk, hc, hp]]
                simp [hp]
              · rw [show loadLoop ko none (b :: rest) = loadLoop ko (some c') rest by
                  simp [loadLoop, hk, hc, hp]]
                rw [ih ko (some c') k c]
                constructor
                · rintro ⟨hko, rfl⟩
                  exact ⟨hko, ⟨b, rfl, hp⟩⟩
                · rintro ⟨hko, ⟨bc, hbc, hpc⟩⟩
                  obtain rfl := Option.some.inj hbc
                  rw [hp] at hpc
                  exact ⟨hko, (Except.ok.inj hpc).symm⟩
        · rw [@List.find?_cons_of_neg _ (fun b => isKeyType b.type) b rest (by simp [hk]),
              @List.find?_cons_of_neg _ (fun b => isCertType b.type) b rest (by simp [hc])]
          rw [show loadLoop ko co (b :: rest) = loadLoop ko co rest by simp [loadLoop, hk, hc]]
          exact ih ko co k c

/-- C6: `loadPrivateKeyAndCert` retains the first private-key block (PKCS#1
for "RSA PRIVATE KEY", PKCS#8 for "PRIVATE KEY") and the first certificate
block, ignoring later blocks of the same kind, and errors exactly when a
retained block fails to parse or when either kind of block is missing. -/
theorem c6_load_first_blocks (blocks : List PEMBlock) :
    (∀ k c, loadPrivateKeyAndCert blocks = .ok (k, c) ↔
        (∃ bk, blocks.find? (fun b => isKeyType b.type) = some bk ∧
          parseKeyBlock bk = .ok k) ∧
        (∃ bc, blocks.find? (fun b => isCertType b.type) = some bc ∧
          parseCertificate bc.bytes = .ok c)) ∧
    (exOk (loadPrivateKeyAndCert blocks) = false ↔
        blocks.find? (fun b => isKeyType b.type) = none ∨
        blocks.find? (fun b => isCertType b.type) = none ∨
        (∃ bk, blocks.find? (fun b => isKeyType b.type) = some bk ∧
          exOk (parseKeyBlock bk) = false) ∨
        (∃ bc, blocks.find? (fun b => isCertType b.type) = some bc ∧
          exOk (parseCertificate bc.bytes) = false)) := by
  have hmain : ∀ k c, loadPrivateKeyAndCert blocks = .ok (k, c) ↔
      (∃ bk, blocks.find? (fun b => isKeyType b.type) = some bk ∧
        parseKeyBlock bk = .ok k) ∧
      (∃ bc, blocks.find? (fun b => isCertType b.type) = some bc ∧
        parseCertificate bc.bytes = .ok c) := by
    intro k c
    exact loadLoop_ok_iff blocks none none k c
  refine ⟨hmain, ?_, ?_⟩
  · intro hfail
    rcases hfk : blocks.find? (fun b => isKeyType b.type) with _ | bk
    · exact Or.inl hfk
    rcases hfc : blocks.find? (fun b => isCertType b.type) with _ | bc
    · exact Or.inr (Or.inl hfc)
    rcases hpk : parseKeyBlock bk with e | k
    · exact Or.inr (Or.inr (Or.inl ⟨bk, hfk, by rw [hpk]; rfl⟩))
    rcases hpc : parseCertificate bc.bytes with e | c
    · exact Or.inr (Or.inr (Or.inr ⟨bc, hfc, by rw [hpc]; rfl⟩))
    exfalso
    have hok : loadPrivateKeyAndCert blocks = .ok (k, c) :=
      (hmain k c).2 ⟨⟨bk, hfk, hpk⟩, ⟨bc, hfc, hpc⟩⟩
    rw [hok] at hfail
    exact absurd hfail (by simp [exOk])
  · intro hcases
    rcases hload : loadPrivateKeyAndCert blocks with e | ⟨k, c⟩
    · rfl
    exfalso
    obtain ⟨⟨bk, hfk, hpk⟩, ⟨bc, hfc, hpc⟩⟩ := (hmain k c).1 hload
    rcases hcases with h | h | ⟨bk', hbk', hex⟩ | ⟨bc', hbc', hex⟩
    · rw [h] at hfk; exact Option.noConfusion hfk
    · rw [h] at hfc; exact Option.noConfusion hfc
    · rw [hfk] at hbk'
      obtain rfl := Option.some.inj hbk'
      rw [hpk] at hex
      exact absurd hex (by simp [exOk])
    · rw [hfc] at hbc'
      obtain rfl := Option.some.inj hbc'
      rw [hpc] at hex
      exact absurd hex (by simp [exOk])

/-- C4 counterexample: a bundle with one private-key block and two
certificate blocks loads successfully, so loading succeeding does not require
exactly one certificate block. -/
theorem c4_counterexample :
    loadPrivateKeyAndCert
      [⟨strLit "RSA PRIVATE KEY", DERBytes.pkcs1 1⟩,
        ⟨strLit "CERTIFICATE", DERBytes.certDER 2⟩,
        ⟨strLit "CERTIFICATE", DERBytes.certDER 3⟩] = Except.ok (1, 2) ∧
    (([⟨strLit "RSA PRIVATE KEY", DERBytes.pkcs1 1⟩,
        ⟨strLit "CERTIFICATE", DERBytes.certDER 2⟩,
        ⟨strLit "CERTIFICATE", DERBytes.certDER 3⟩] : List PEMBlock).filter
      (fun b => isCertType b.type)).length = 2 := by
  constructor
  · rfl
  · rfl

/-- C4 (amended): loading succeeds only if the bundle contains at least one
private-key block and at least one certificate block; a bundle missing either
kind fails (duplicates of either kind are tolerated — the first is retained). -/
theorem c4_presence_required (blocks : List PEMBlock) :
    (∀ p, loadPrivateKeyAndCert blocks = .ok p →
        (∃ b ∈ blocks, isKeyType b.type = true) ∧ (∃ b ∈ blocks, isCertType b.type = true)) ∧
    (((¬ ∃ b ∈ blocks, isKeyType b.type = true) ∨
        (¬ ∃ b ∈ blocks, isCertType b.type = true)) →
      exOk (loadPrivateKeyAndCert blocks) = false) := by
  constructor
  · rintro ⟨k, c⟩ hok
    obtain ⟨⟨bk, hfk, _⟩, ⟨bc, hfc, _⟩⟩ := (loadLoop_ok_iff blocks none none k c).1 hok
    exact ⟨⟨bk, List.mem_of_find?_eq_some hfk, by simpa using List.find?_some hfk⟩,
      ⟨bc, List.mem_of_find?_eq_some hfc, by simpa using List.find?_some hfc⟩⟩
  · intro hmiss
    rcases hload : loadPrivateKeyAndCert blocks with e | ⟨k, c⟩
    · rfl
    exfalso
    obtain ⟨⟨bk, hfk, _⟩, ⟨bc, hfc, _⟩⟩ := (loadLoop_ok_iff blocks none none k c).1 hload
    rcases hmiss with hmiss | hmiss
    · exact hmiss ⟨bk, List.mem_of_find?_eq_some hfk, by simpa using List.find?_some hfk⟩
    · exact hmiss ⟨bc, List.mem_of_find?_eq_some hfc, by simpa using List.find?_some hfc⟩

theorem c4_witness :
    exOk (loadPrivateKeyAndCert []) = false :=
  (c4_presence_required []).2 (Or.inl (by simp))


set_option maxRecDepth 40000 in
theorem sha1_abc_vector :
    sha1 (strLit "abc") =
      [169, 153, 62, 54, 71, 6, 129, 106, 186, 62, 37, 113, 120, 80, 194, 108,
        156, 208, 216, 157] := by
  decide

/-- C5: the legacy secure hash equals the uppercase hex encoding of
HMAC-SHA1, keyed by the secret, of the separator-free concatenation of the 40
signature-string values in the documented order (reserved slots empty,
request3DS = "Y"); as a Lean function it is a deterministic pure function of
those fields and the secret. -/
theorem c5_secure_hash_is_hmac_sha1_of_concat
    (apiVersion timestamp merchantID invoiceNo : GoStr)
    (details : SecureFieldsPaymentDetails) (encryptedCardInfo secretKey : GoStr) :
    createHMAC (createSignatureString apiVersion timestamp merchantID invoiceNo
        details encryptedCardInfo) secretKey =
      upperHex (hmacSha1 secretKey
        (apiVersion ++ (timestamp ++ (merchantID ++ (invoiceNo ++
         (details.Description ++ (zeroPrefixed12DCents details.AmountCents ++
         (details.CurrencyCode ++ ([] ++ ([] ++ ([] ++ (details.CountryCode ++
         (details.CustomerName ++ ([] ++ ([] ++ (details.UserDefined1 ++
         (details.UserDefined2 ++ (details.UserDefined3 ++
         (details.UserDefined4 ++ (details.UserDefined5 ++ (details.StoreCard
         ++ ([] ++ ([] ++ ([] ++ ([] ++ ([] ++ ([] ++ ([] ++ ([] ++ ([] ++ ([]
         ++ ([] ++ ([] ++ (strLit "Y" ++ ([] ++ ([] ++ ([] ++ ([] ++ ([] ++ ([]
         ++ (encryptedCardInfo))))))))))))))))))))))))))))))))))))))))) := by
  unfold createHMAC
  refine congrArg (fun x => upperHex (hmacSha1 secretKey x)) ?_
  unfold createSignatureString
  simp [List.append_assoc]


theorem natDecimalF_digits : ∀ f n : Nat, ∀ b ∈ natDecimalF f n, 48 ≤ b ∧ b ≤ 57 := by
  intro f
  induction f with
  | zero =>
      intro n b hb
      simp only [natDecimalF, List.mem_singleton] at hb
      omega
  | succ f ih =>
      intro n b hb
      simp only [natDecimalF] at hb
      split at hb
      · simp only [List.mem_singleton] at hb
        omega
      · rcases List.mem_append.1 hb with hb | hb
        · exact ih _ b hb
        · simp only [List.mem_singleton] at hb
          omega

theorem natDecimal_digits (n : Nat) : ∀ b ∈ natDecimal n, 48 ≤ b ∧ b ≤ 57 :=
  natDecimalF_digits n n

theorem natDecimalF_ne_nil (f n : Nat) : natDecimalF f n ≠ [] := by
  cases f with
  | zero => simp [natDecimalF]
  | succ f =>
      simp only [natDecimalF]
      split
      · simp
      · simp

theorem natDecimalF_val : ∀ f n : Nat, n ≤ f →
    List.foldl (fun a c => a * 10 + (c - 48)) 0 (natDecimalF f n) = n := by
  intro f
  induction f with
  | zero =>
      intro n hn
      have : n = 0 := by omega
      subst this
      simp [natDecimalF]
  | succ f ih =>
      intro n hn
      simp only [natDecimalF]
      split
      · simp only [List.foldl]
        omega
      · rw [List.foldl_append]
        rw [ih (n / 10) (by omega)]
        simp only [List.foldl]
        omega

theorem natDecimalF_len1 : ∀ f n : Nat, n < 10 → (natDecimalF f n).length = 1 := by
  intro f n h
  cases f with
  | zero => simp [natDecimalF]
  | succ f => simp [natDecimalF, h]

theorem natDecimalF_len2 (f n : Nat) (h : n < 100) : (natDecimalF f n).length ≤ 2 := by
  cases f with
  | zero => simp [natDecimalF]
  | succ f =>
      simp only [natDecimalF]
      split
      · simp
      · rw [List.length_append, natDecimalF_len1 f (n / 10) (by omega)]
        simp

theorem natDecimal_ne_nil (n : Nat) : natDecimal n ≠ [] := natDecimalF_ne_nil n n

theorem natDecimal_val (n : Nat) :
    List.foldl (fun a c => a * 10 + (c - 48)) 0 (natDecimal n) = n :=
  natDecimalF_val n n le_rfl

theorem natDecimal_len2 (n : Nat) (h : n < 100) : (natDecimal n).length ≤ 2 :=
  natDecimalF_len2 n n h

theorem zeroPad_digits {s : GoStr} (hs : ∀ b ∈ s, 48 ≤ b ∧ b ≤ 57) (w : Nat) :
    ∀ b ∈ zeroPad w s, 48 ≤ b ∧ b ≤ 57 := by
  intro b hb
  rcases List.mem_append.1 hb with hb | hb
  · have := List.eq_of_mem_replicate hb
    omega
  · exact hs b hb

theorem foldl_replicate_zero : ∀ k : Nat,
    List.foldl (fun a c => a * 10 + (c - 48)) 0 (List.replicate k 48) = 0 := by
  intro k
  induction k with
  | zero => rfl
  | succ k ih => simpa [List.replicate_succ, List.foldl] using ih

theorem foldl_zeroPad (w : Nat) (s : GoStr) :
    List.foldl (fun a c => a * 10 + (c - 48)) 0 (zeroPad w s) =
      List.foldl (fun a c => a * 10 + (c - 48)) 0 s := by
  unfold zeroPad
  rw [List.foldl_append, foldl_replicate_zero]

theorem zeroPad_ne_nil {s : GoStr} (hs : s ≠ []) (w : Nat) : zeroPad w s ≠ [] := by
  unfold zeroPad
  intro h
  exact hs (List.append_eq_nil.1 h).2

theorem zeroPad_length {s : GoStr} (w : Nat) (h : s.length ≤ w) :
    (zeroPad w s).length = w := by
  unfold zeroPad
  rw [List.length_append, List.length_replicate]
  omega

theorem parseDigitsAux_digits : ∀ (l : GoStr) (acc : Nat),
    (∀ b ∈ l, 48 ≤ b ∧ b ≤ 57) →
    parseDigitsAux acc l = some (List.foldl (fun a c => a * 10 + (c - 48)) acc l) := by
  intro l
  induction l with
  | nil => intro acc _; rfl
  | cons c rest ih =>
      intro acc h
      have hc := h c (by simp)
      simp only [parseDigitsAux, List.foldl]
      rw [if_pos (by omega)]
      exact ih _ (fun b hb => h b (by simp [hb]))

theorem parseInt64_digits (s : GoStr) (hs : s ≠ [])
    (hd : ∀ b ∈ s, 48 ≤ b ∧ b ≤ 57)
    (hb : List.foldl (fun a c => a * 10 + (c - 48)) 0 s ≤ 9223372036854775807) :
    parseInt64 s = .ok ((List.foldl (fun a c => a * 10 + (c - 48)) 0 s : Nat) : Int) := by
  rcases s with _ | ⟨c, t⟩
  · exact absurd rfl hs
  have hc := hd c (by simp)
  unfold parseInt64
  rw [if_neg (by simp)]
  rw [if_neg (by simp only [List.head?]; intro h; injection h with h; omega)]
  rw [if_neg (by simp only [List.head?]; intro h; injection h with h; omega)]
  rw [parseDigitsAux_digits _ _ hd]
  dsimp only
  rw [if_pos hb]

/-- C9: `Cents.UnmarshalJSON` inverts `Cents.MarshalJSON` on every
non-negative `Cents` (int64) value; the round trip is not guaranteed for
negative values — e.g. -123 marshals to `"-00000000001.-23000"` and
unmarshals to -102. -/
theorem c9_cents_json_roundtrip :
    (∀ c : Int, 0 ≤ c → c < 9223372036854775808 →
      centsUnmarshalJSON (centsMarshalJSON c) = .ok c) ∧
    centsUnmarshalJSON (centsMarshalJSON (-123)) = .ok (-102) := by
  constructor
  · intro c h0 hlt
    obtain ⟨n, rfl⟩ : ∃ n : Nat, c = (n : Int) := ⟨c.toNat, (Int.toNat_of_nonneg h0).symm⟩
    have hn : n < 9223372036854775808 := by exact_mod_cast hlt
    have hdiv : Int.tdiv ((n : Int)) 100 = ((n / 100 : Nat) : Int) := rfl
    have hmod : Int.tmod ((n : Int)) 100 = ((n % 100 : Nat) : Int) := rfl
    have h12 : zeroPrefixed12DCents (Int.tdiv ((n : Int)) 100) =
        zeroPad 12 (natDecimal (n / 100)) := by
      rw [hdiv]
      unfold zeroPrefixed12DCents
      rw [if_neg (by omega)]
      rfl
    have h02 : pct02 (Int.tmod ((n : Int)) 100) = zeroPad 2 (natDecimal (n % 100)) := by
      rw [hmod]
      unfold pct02
      rw [if_neg (by omega)]
      rfl
    have hP1d : ∀ b ∈ zeroPad 12 (natDecimal (n / 100)), 48 ≤ b ∧ b ≤ 57 :=
      zeroPad_digits (natDecimal_digits _) 12
    have hP2d : ∀ b ∈ zeroPad 2 (natDecimal (n % 100)) ++ strLit "000", 48 ≤ b ∧ b ≤ 57 := by
      intro b hb
      rcases List.mem_append.1 hb with hb | hb
      · exact zeroPad_digits (natDecimal_digits _) 2 b hb
      · have : b = 48 := by
          simp only [strLit] at hb
          simp at hb
          omega
        omega
    have hP1dot : 46 ∉ zeroPad 12 (natDecimal (n / 100)) := by
      intro h
      have := hP1d 46 h
      omega
    have hP2dot : 46 ∉ zeroPad 2 (natDecimal (n % 100)) ++ strLit "000" := by
      intro h
      have := hP2d 46 h
      omega
    unfold centsMarshalJSON
    rw [h12, h02]
    unfold centsUnmarshalJSON jsonUnquote
    rw [show zeroPad 12 (natDecimal (n / 100)) ++
        46 :: (zeroPad 2 (natDecimal (n % 100)) ++ strLit "000" ++ [34]) =
        (zeroPad 12 (natDecimal (n / 100)) ++
          46 :: (zeroPad 2 (natDecimal (n % 100)) ++ strLit "000")) ++ [34] by
      simp [List.append_assoc]]
    dsimp only
    rw [if_pos ?side]
    case side =>
      refine ⟨rfl, ?_, ?_, ?_⟩
      case refine_1 =>
        simp only [strLit]
        simp only [show ("000".data.map Char.toNat) = [48, 48, 48] from rfl]
        rw [show (zeroPad 12 (natDecimal (n / 100)) ++
            46 :: (zeroPad 2 (natDecimal (n % 100)) ++ [48, 48, 48])) ++ [34] =
            (zeroPad 12 (natDecimal (n / 100)) ++
              46 :: (zeroPad 2 (natDecimal (n % 100)) ++ [48, 48, 48])) ++ [34] from rfl]
        exact List.getLast?_concat _
      · rw [List.dropLast_concat]
        intro h
        rcases List.mem_append.1 h with h | h
        · have := hP1d 34 h
          omega
        · rcases List.mem_cons.1 h with h | h
          · omega
          · have := hP2d 34 h
            omega
      · rw [List.dropLast_concat]
        intro h
        rcases List.mem_append.1 h with h | h
        · have := hP1d 92 h
          omega
        · rcases List.mem_cons.1 h with h | h
          · omega
          · have := hP2d 92 h
            omega
    rw [List.dropLast_concat]
    dsimp only
    rw [splitOnDot_append_dot _ _ hP1dot,
        splitOnDot_no_dot _ hP2dot]
    dsimp only
    have hval1 : List.foldl (fun a c => a * 10 + (c - 48)) 0
        (zeroPad 12 (natDecimal (n / 100))) = n / 100 := by
      rw [foldl_zeroPad]
      exact natDecimal_val (n / 100)
    rw [parseInt64_digits _ (zeroPad_ne_nil (natDecimal_ne_nil _) 12) hP1d
      (by rw [hval1]; omega)]
    rw [hval1]
    have hlen2 : (zeroPad 2 (natDecimal (n % 100))).length = 2 :=
      zeroPad_length 2 (natDecimal_len2 _ (by omega))
    have htake : (zeroPad 2 (natDecimal (n % 100)) ++ strLit "000").take 5 =
        zeroPad 2 (natDecimal (n % 100)) ++ strLit "000" := by
      apply List.take_of_length_le
      rw [List.length_append, hlen2]
      rfl
    rw [htake]
    have hval2 : List.foldl (fun a c => a * 10 + (c - 48)) 0
        (zeroPad 2 (natDecimal (n % 100)) ++ strLit "000") = n % 100 * 1000 := by
      rw [List.foldl_append, foldl_zeroPad]
      rw [natDecimal_val (n % 100)]
      show List.foldl (fun a c => a * 10 + (c - 48)) (n % 100) [48, 48, 48] = n % 100 * 1000
      simp [List.foldl]
      ring
    rw [parseInt64_digits _ (by simp [strLit]) hP2d (by rw [hval2]; omega)]
    rw [hval2]
    dsimp only
    congr 1
    have htd : Int.tdiv ((n % 100 * 1000 : Nat) : Int) 1000 = ((n % 100 : Nat) : Int) := by
      rw [show Int.tdiv ((n % 100 * 1000 : Nat) : Int) 1000 =
          ((n % 100 * 1000 / 1000 : Nat) : Int) from rfl]
      congr 1
      omega
    rw [htd]
    push_cast
    omega
  · rfl

theorem c9_witness :
    (0 : Int) ≤ 1234 ∧ centsUnmarshalJSON (centsMarshalJSON 1234) = .ok 1234 :=
  ⟨by decide, (c9_cents_json_roundtrip).1 1234 (by decide) (by decide)⟩


/-- C10: `VoidCancel` rejects a request (building no payment process
request) exactly when the invoice number is empty or the action amount is
≤ 0 cents; every accepted request yields a `PaymentProcessRequest` whose
`ProcessType` is forced to "V" regardless of the caller-supplied value and
whose `MerchantID` falls back to the client's when the request's is empty. -/
theorem c10_voidcancel_validation (c : Client) (req : VoidCancelRequest) :
    (exOk (VoidCancel c req) = false ↔
      req.InvoiceNo = [] ∨ req.ActionAmount.ToCents ≤ 0) ∧
    (∀ p, VoidCancel c req = .ok p →
      p.ProcessType = strLit "V" ∧
      p.MerchantID = (if req.MerchantID = [] then c.MerchantID else req.MerchantID) ∧
      p.InvoiceNo = req.InvoiceNo ∧
      p.ActionAmount = req.ActionAmount ∧
      p.Version = strLit "3.8" ∧
      p.IdempotencyID = req.IdempotencyID ∧
      p.ChildMerchantID = req.ChildMerchantID) := by
  unfold VoidCancel
  constructor
  · constructor
    · intro hfail
      by_cases h1 : req.InvoiceNo = []
      · exact Or.inl h1
      by_cases h2 : req.ActionAmount.ToCents ≤ 0
      · exact Or.inr h2
      rw [if_neg h1, if_neg h2] at hfail
      exact absurd hfail (by simp [exOk])
    · intro h
      rcases h with h | h
      · rw [if_pos h]
        rfl
      · by_cases h1 : req.InvoiceNo = []
        · rw [if_pos h1]
          rfl
        · rw [if_neg h1, if_pos h]
          rfl
  · intro p hp
    by_cases h1 : req.InvoiceNo = []
    · rw [if_pos h1] at hp
      exact absurd hp (by simp)
    by_cases h2 : req.ActionAmount.ToCents ≤ 0
    · rw [if_neg h1, if_pos h2] at hp
      exact absurd hp (by simp)
    rw [if_neg h1, if_neg h2] at hp
    obtain rfl := Except.ok.inj hp
    exact ⟨rfl, rfl, rfl, rfl, rfl, rfl, rfl⟩

theorem c10_witness :
    exOk (VoidCancel ⟨[], strLit "M", [], [], [], []⟩
      ⟨[], strLit "N", ⟨100⟩, strLit "X", none, none⟩) = false :=
  (c10_voidcancel_validation ⟨[], strLit "M", [], [], [], []⟩
    ⟨[], strLit "N", ⟨100⟩, strLit "X", none, none⟩).1.2 (Or.inl rfl)


theorem stdVal_stdChar (v : Nat) (h : v < 64) : stdVal (stdChar v) = some v := by
  interval_cases v <;> rfl

theorem stdChar_ne_61 (v : Nat) : stdChar v ≠ 61 := by
  unfold stdChar
  split_ifs <;> omega

theorem b64sDecode_quad (c1 c2 c3 c4 : Nat) :
    b64sDecode [c1, c2, c3, c4] =
      if c3 = 61 then
        if c4 = 61 then
          match stdVal c1, stdVal c2 with
          | some v1, some v2 =>
              if v2 % 16 = 0 then some [v1 * 4 + v2 / 16] else none
          | _, _ => none
        else none
      else if c4 = 61 then
        match stdVal c1, stdVal c2, stdVal c3 with
        | some v1, some v2, some v3 =>
            if v3 % 4 = 0 then some [v1 * 4 + v2 / 16, v2 % 16 * 16 + v3 / 4] else none
        | _, _, _ => none
      else
        match stdVal c1, stdVal c2, stdVal c3, stdVal c4 with
        | some v1, some v2, some v3, some v4 =>
            some [v1 * 4 + v2 / 16, v2 % 16 * 16 + v3 / 4, v3 % 4 * 64 + v4]
        | _, _, _, _ => none := rfl

theorem b64sDecode_quint (c1 c2 c3 c4 d : Nat) (rest : GoStr) :
    b64sDecode (c1 :: c2 :: c3 :: c4 :: d :: rest) =
      match stdVal c1, stdVal c2, stdVal c3, stdVal c4 with
      | some v1, some v2, some v3, some v4 =>
          match b64sDecode (d :: rest) with
          | some bs =>
              some ((v1 * 4 + v2 / 16) :: (v2 % 16 * 16 + v3 / 4) :: (v3 % 4 * 64 + v4) :: bs)
          | none => none
      | _, _, _, _ => none := rfl

theorem b64sEncode_cons (x : Nat) (l : GoStr) : ∃ d t, b64sEncode (x :: l) = d :: t := by
  match l with
  | [] => exact ⟨_, _, rfl⟩
  | [y] => exact ⟨_, _, rfl⟩
  | y :: z :: w => exact ⟨_, _, rfl⟩

theorem b64sDecode_b64sEncode : ∀ l : GoStr, AllBytes l → b64sDecode (b64sEncode l) = some l
  | [], _ => by simp [b64sEncode, b64sDecode]
  | [a], h => by
      have ha : a < 256 := h a (by simp)
      show b64sDecode [stdChar (a / 4), stdChar (a % 4 * 16), 61, 61] = some [a]
      rw [b64sDecode_quad, if_pos rfl, if_pos rfl]
      rw [stdVal_stdChar (a / 4) (by omega), stdVal_stdChar (a % 4 * 16) (by omega)]
      dsimp only
      rw [if_pos (show a % 4 * 16 % 16 = 0 by omega)]
      simp only [Option.some.injEq, List.cons.injEq, and_true]
      omega
  | [a, b], h => by
      have ha : a < 256 := h a (by simp)
      have hb : b < 256 := h b (by simp)
      show b64sDecode [stdChar (a / 4), stdChar (a % 4 * 16 + b / 16),
        stdChar (b % 16 * 4), 61] = some [a, b]
      rw [b64sDecode_quad, if_neg (stdChar_ne_61 _), if_pos rfl]
      rw [stdVal_stdChar (a / 4) (by omega),
          stdVal_stdChar (a % 4 * 16 + b / 16) (by omega),
          stdVal_stdChar (b % 16 * 4) (by omega)]
      dsimp only
      rw [if_pos (show b % 16 * 4 % 4 = 0 by omega)]
      simp only [Option.some.injEq, List.cons.injEq, and_true]
      exact ⟨by omega, by omega⟩
  | [a, b, c], h => by
      have ha : a < 256 := h a (by simp)
      have hb : b < 256 := h b (by simp)
      have hc : c < 256 := h c (by simp)
      show b64sDecode [stdChar (a / 4), stdChar (a % 4 * 16 + b / 16),
        stdChar (b % 16 * 4 + c / 64), stdChar (c % 64)] = some [a, b, c]
      rw [b64sDecode_quad, if_neg (stdChar_ne_61 _), if_neg (stdChar_ne_61 _)]
      rw [stdVal_stdChar (a / 4) (by omega),
          stdVal_stdChar (a % 4 * 16 + b / 16) (by omega),
          stdVal_stdChar (b % 16 * 4 + c / 64) (by omega),
          stdVal_stdChar (c % 64) (by omega)]
      dsimp only
      simp only [Option.some.injEq, List.cons.injEq, and_true]
      refine ⟨by omega, by omega, by omega⟩
  | a :: b :: c :: r0 :: rtl, h => by
      have ha : a < 256 := h a (by simp)
      have hb : b < 256 := h b (by simp)
      have hc : c < 256 := h c (by simp)
      have hrest : AllBytes (r0 :: rtl) := fun x hx => h x (by simp [hx])
      have ih := b64sDecode_b64sEncode (r0 :: rtl) hrest
      obtain ⟨d, t, henc⟩ := b64sEncode_cons r0 rtl
      show b64sDecode (stdChar (a / 4) :: stdChar (a % 4 * 16 + b / 16) ::
        stdChar (b % 16 * 4 + c / 64) :: stdChar (c % 64) ::
        b64sEncode (r0 :: rtl)) = some (a :: b :: c :: r0 :: rtl)
      rw [henc, b64sDecode_quint]
      rw [stdVal_stdChar (a / 4) (by omega),
          stdVal_stdChar (a % 4 * 16 + b / 16) (by omega),
          stdVal_stdChar (b % 16 * 4 + c / 64) (by omega),
          stdVal_stdChar (c % 64) (by omega)]
      dsimp only
      rw [← henc, ih]
      dsimp only
      simp only [Option.some.injEq, List.cons.injEq, and_true]
      refine ⟨by omega, by omega, by omega⟩

theorem encNat_bytes (n : Nat) : AllBytes (encNat n) :=
  AllBytes_append (natTag_bytes n) (by intro b hb; simp at hb; omega)

theorem flatten_encRecipient_bytes (rs : List RecipientInfo) :
    AllBytes ((rs.map encRecipient).flatten) := by
  intro b hb
  rw [List.mem_flatten] at hb
  obtain ⟨l, hl, hbl⟩ := hb
  rw [List.mem_map] at hl
  obtain ⟨r, _, rfl⟩ := hl
  unfold encRecipient at hbl
  rcases List.mem_append.1 hbl with hx | hx
  rcases List.mem_append.1 hx with hx | hx
  rcases List.mem_append.1 hx with hx | hx
  all_goals exact encNat_bytes _ b hx

theorem derEncodeEnveloped_bytes (e : EnvelopedData) (hc : AllBytes e.content) :
    AllBytes (derEncodeEnveloped e) := by
  unfold derEncodeEnveloped
  exact AllBytes_append (AllBytes_append (AllBytes_append (AllBytes_append
    (encNat_bytes _) (flatten_encRecipient_bytes _)) (encNat_bytes _))
    (encNat_bytes _)) hc

theorem parseTag_encNat (n : Nat) (rest : GoStr) :
    parseTag (encNat n ++ rest) = some (n, rest) := by
  rw [show encNat n ++ rest = natTag n ++ 0 :: rest by simp [encNat]]
  exact parseTag_natTag n rest

theorem parseRecipients_enc : ∀ (rs : List RecipientInfo) (rest : GoStr),
    parseRecipients rs.length ((rs.map encRecipient).flatten ++ rest) = some (rs, rest) := by
  intro rs
  induction rs with
  | nil => intro rest; simp [parseRecipients]
  | cons r rs ih =>
      intro rest
      rw [show ((r :: rs).map encRecipient).flatten ++ rest =
          encNat r.issuer ++ (encNat r.serial ++ (encNat r.wrapPair ++ (encNat r.cek ++
            ((rs.map encRecipient).flatten ++ rest)))) by
        simp [encRecipient, List.append_assoc]]
      show parseRecipients (rs.length + 1) _ = _
      unfold parseRecipients
      rw [parseTag_encNat]
      dsimp only
      rw [parseTag_encNat]
      dsimp only
      rw [parseTag_encNat]
      dsimp only
      rw [parseTag_encNat]
      dsimp only
      rw [ih rest]

theorem pkcs7Parse_derEncode (e : EnvelopedData) :
    pkcs7Parse (derEncodeEnveloped e) = .ok e := by
  unfold pkcs7Parse derEncodeEnveloped
  simp only [List.append_assoc]
  rw [parseTag_encNat]
  dsimp only
  rw [parseRecipients_enc]
  dsimp only
  rw [parseTag_encNat]
  dsimp only
  rw [parseTag_encNat]
  dsimp only
  rw [if_pos rfl]

theorem append_ne_of_elem_diff {p q : GoStr} (x y : GoStr) (i : Nat)
    (hp : i < p.length) (hq : i < q.length) (hne : p[i]? ≠ q[i]?) : p ++ x ≠ q ++ y := by
  intro h
  apply hne
  have h1 : (p ++ x)[i]? = p[i]? := by rw [List.getElem?_append, if_pos hp]
  have h2 : (q ++ y)[i]? = q[i]? := by rw [List.getElem?_append, if_pos hq]
  rw [← h1, ← h2, h]

/-- C8: each failure mode of `decryptPKCS7` — malformed base64, malformed
ASN.1 enveloped data, no recipient matching the local certificate, and
decryption failure — surfaces as its own error (pairwise distinct, never a
plaintext); and on success the exact decrypted content bytes are returned. -/
theorem c8_decryptPKCS7_failure_modes (priv : RSAPrivateKey) (cert : Certificate) :
    (∀ bs, b64sDecode bs = none →
      decryptPKCS7 bs priv cert = .error (strLit "failed to decode base64 data")) ∧
    (∀ bs der e, b64sDecode bs = some der → pkcs7Parse der = .error e →
      decryptPKCS7 bs priv cert = .error (strLit "failed to parse PKCS7 data: " ++ e)) ∧
    (∀ bs der p7, b64sDecode bs = some der → pkcs7Parse der = .ok p7 →
      p7.recipients.find?
        (fun r => r.issuer == cert.issuer && r.serial == cert.serial) = none →
      decryptPKCS7 bs priv cert = .error (strLit "failed to decrypt data: " ++
        strLit "no enveloped recipient for provided certificate")) ∧
    (∀ bs der p7 r, b64sDecode bs = some der → pkcs7Parse der = .ok p7 →
      p7.recipients.find?
        (fun r => r.issuer == cert.issuer && r.serial == cert.serial) = some r →
      ¬ (r.wrapPair = priv.pair ∧ r.cek = p7.cekUsed) →
      decryptPKCS7 bs priv cert = .error (strLit "failed to decrypt data: " ++
        strLit "symmetric decryption failed")) ∧
    (∀ e : EnvelopedData, AllBytes e.content → ∀ r,
      e.recipients.find?
        (fun r => r.issuer == cert.issuer && r.serial == cert.serial) = some r →
      r.wrapPair = priv.pair → r.cek = e.cekUsed →
      decryptPKCS7 (b64sEncode (derEncodeEnveloped e)) priv cert = .ok e.content) ∧
    ((∀ e1 : GoStr,
        strLit "failed to decode base64 data" ≠ strLit "failed to parse PKCS7 data: " ++ e1) ∧
      (∀ e2 : GoStr,
        strLit "failed to decode base64 data" ≠ strLit "failed to decrypt data: " ++ e2) ∧
      (∀ e1 e2 : GoStr,
        strLit "failed to parse PKCS7 data: " ++ e1 ≠ strLit "failed to decrypt data: " ++ e2) ∧
      strLit "failed to decrypt data: " ++
          strLit "no enveloped recipient for provided certificate" ≠
        strLit "failed to decrypt data: " ++ strLit "symmetric decryption failed") := by
  refine ⟨?_, ?_, ?_, ?_, ?_, ?_, ?_, ?_, ?_⟩
  · intro bs hb
    unfold decryptPKCS7
    rw [hb]
  · intro bs der e hb hp
    unfold decryptPKCS7
    rw [hb]
    dsimp only
    rw [hp]
  · intro bs der p7 hb hp hf
    unfold decryptPKCS7
    rw [hb]
    dsimp only
    rw [hp]
    dsimp only
    unfold p7Decrypt
    rw [hf]
  · intro bs der p7 r hb hp hf hkeys
    unfold decryptPKCS7
    rw [hb]
    dsimp only
    rw [hp]
    dsimp only
    unfold p7Decrypt
    rw [hf]
    dsimp only
    rw [if_neg hkeys]
  · intro e hc r hf hw hk
    unfold decryptPKCS7
    rw [b64sDecode_b64sEncode _ (derEncodeEnveloped_bytes e hc)]
    dsimp only
    rw [pkcs7Parse_derEncode]
    dsimp only
    unfold p7Decrypt
    rw [hf]
    dsimp only
    rw [if_pos ⟨hw, hk⟩]
  · intro e1
    rw [show strLit "failed to decode base64 data" =
        strLit "failed to decode base64 data" ++ [] by simp]
    exact append_ne_of_elem_diff _ _ 10 (by decide) (by decide) (by decide)
  · intro e2
    rw [show strLit "failed to decode base64 data" =
        strLit "failed to decode base64 data" ++ [] by simp]
    exact append_ne_of_elem_diff _ _ 13 (by decide) (by decide) (by decide)
  · intro e1 e2
    exact append_ne_of_elem_diff _ _ 10 (by decide) (by decide) (by decide)
  · rw [show strLit "failed to decrypt data: " ++
        strLit "no enveloped recipient for provided certificate" =
        (strLit "failed to decrypt data: " ++
          strLit "no enveloped recipient for provided certificate") ++ [] by simp,
      show strLit "failed to decrypt data: " ++ strLit "symmetric decryption failed" =
        (strLit "failed to decrypt data: " ++
          strLit "symmetric decryption failed") ++ [] by simp]
    exact append_ne_of_elem_diff _ _ 24 (by decide) (by decide) (by decide)

theorem c8_witness :
    decryptPKCS7 (b64sEncode (derEncodeEnveloped ⟨[⟨1, 2, 3, 4⟩], 4, strLit "xml"⟩))
      ⟨3⟩ ⟨1, 2⟩ = .ok (strLit "xml") :=
  (c8_decryptPKCS7_failure_modes ⟨3⟩ ⟨1, 2⟩).2.2.2.2.1 ⟨[⟨1, 2, 3, 4⟩], 4, strLit "xml"⟩
    (by decide) ⟨1, 2, 3, 4⟩ (by decide) rfl rfl

end Api2c2p
